import Mathlib

/-!
# Verification of the xtokens cross-chain transfer planner

Shallow embedding of `src/xtokens/src/lib.rs` (the `do_transfer_multiassets`
pipeline, its reserve-agreement loop, the three program builders, and the
transact helpers) together with the location/asset data model they operate on.

Machine integers (`u128` amounts, `u64` weights) are modelled as `Nat`; the
only place the source relies on wrap-around behaviour is `MultiAssets::push`,
whose `saturating_add` is modelled explicitly.  External collaborators
(weigher, XCM executor, transport) are modelled as boolean switches in an
environment record, since the source only branches on their success.
-/

namespace Xtokens

/-- One segment of an interior location path.  Subset of the source's
`Junction` enum restricted to the junction kinds the pallet manipulates;
constructor order follows the Rust declaration order, which the derived
`Ord` instance (used by `MultiAssets` sorting) depends on.  Account and key
payloads are collapsed to `Nat` indices. -/
inductive Junction where
  | Parachain (id : Nat)
  | AccountId32 (id : Nat)
  | PalletInstance (idx : Nat)
  | GeneralIndex (idx : Nat)
  | GeneralKey (key : Nat)
  | OnlyChild
deriving DecidableEq, Repr

/-- Model of `MultiLocation`: a `parents` count plus an interior junction path.  The
source's `Junctions` enum (`Here`, `X1` … `X8`) is modelled as a plain list;
the derived `Ord` on `Junctions` compares the constructor (i.e. the length)
first, which `junctionListCmp` reproduces. -/
structure MultiLocation where
  parents : Nat
  interior : List Junction
deriving DecidableEq, Repr

/-- The `MultiLocation::parent()` constant. -/
def MultiLocation.parent : MultiLocation := ⟨1, []⟩

/-- Asset identifier: `Concrete(MultiLocation)` or `Abstract(Vec<u8>)`. -/
inductive AssetId where
  | Concrete (loc : MultiLocation)
  | Abstract (key : List Nat)
deriving DecidableEq, Repr

/-- Model of `Fungibility`: fungible amount or a non-fungible instance (instance
payload collapsed to `Nat`). -/
inductive Fungibility where
  | Fungible (amount : Nat)
  | NonFungible (inst : Nat)
deriving DecidableEq, Repr

/-- Model of `MultiAsset { id, fun }`; the `fun` field is renamed `fungibility`
because `fun` is a Lean keyword. -/
structure MultiAsset where
  id : AssetId
  fungibility : Fungibility
deriving DecidableEq, Repr

/-! ## The derived `Ord` of the Rust types

The source compares assets (`fee_to_dest < fee`) and keeps `MultiAssets`
sorted with the `#[derive(Ord)]` lexicographic order; the functions below
reproduce it. -/

/-- Comparison of `Nat` written with explicit branches (`u32`/`u128` `Ord`). -/
def natCmp (a b : Nat) : Ordering :=
  if a < b then .lt else if a = b then .eq else .gt

/-- Rank of a junction constructor in the Rust declaration order. -/
def junctionRank : Junction → Nat
  | .Parachain _ => 0
  | .AccountId32 _ => 1
  | .PalletInstance _ => 2
  | .GeneralIndex _ => 3
  | .GeneralKey _ => 4
  | .OnlyChild => 5

/-- Payload of a junction, compared when the constructors agree. -/
def junctionPayload : Junction → Nat
  | .Parachain id => id
  | .AccountId32 id => id
  | .PalletInstance idx => idx
  | .GeneralIndex idx => idx
  | .GeneralKey key => key
  | .OnlyChild => 0

/-- Derived `Ord` on `Junction`: constructor rank, then payload. -/
def junctionCmp (a b : Junction) : Ordering :=
  (natCmp (junctionRank a) (junctionRank b)).then
    (natCmp (junctionPayload a) (junctionPayload b))

/-- Lexicographic comparison of equal-length prefixes. -/
def lexCmp (f : α → α → Ordering) : List α → List α → Ordering
  | [], [] => .eq
  | [], _ :: _ => .lt
  | _ :: _, [] => .gt
  | a :: xs, b :: ys => (f a b).then (lexCmp f xs ys)

/-- Derived `Ord` on `Junctions` (`Here` < `X1` < … < `X8`): the constructor
— hence the length — decides first, then the components lexicographically. -/
def junctionListCmp (a b : List Junction) : Ordering :=
  (natCmp a.length b.length).then (lexCmp junctionCmp a b)

/-- Derived `Ord` on `MultiLocation`: `parents`, then `interior`. -/
def locationCmp (a b : MultiLocation) : Ordering :=
  (natCmp a.parents b.parents).then (junctionListCmp a.interior b.interior)

/-- Derived `Ord` on `AssetId`: `Concrete` < `Abstract`, then the payload
(`Vec<u8>` compares lexicographically). -/
def assetIdCmp : AssetId → AssetId → Ordering
  | .Concrete a, .Concrete b => locationCmp a b
  | .Concrete _, .Abstract _ => .lt
  | .Abstract _, .Concrete _ => .gt
  | .Abstract a, .Abstract b => lexCmp natCmp a b

/-- Derived `Ord` on `Fungibility`: `Fungible` < `NonFungible`, then the
payload. -/
def fungibilityCmp : Fungibility → Fungibility → Ordering
  | .Fungible a, .Fungible b => natCmp a b
  | .Fungible _, .NonFungible _ => .lt
  | .NonFungible _, .Fungible _ => .gt
  | .NonFungible a, .NonFungible b => natCmp a b

/-- Derived `Ord` on `MultiAsset`: `id` first, then `fun`. -/
def multiAssetCmp (a b : MultiAsset) : Ordering :=
  (assetIdCmp a.id b.id).then (fungibilityCmp a.fungibility b.fungibility)

/-- The relation `a < b` on `MultiAsset` (the comparison `fee_to_dest < fee` in the
split-fee guard of `do_transfer_multiassets`). -/
def multiAssetLt (a b : MultiAsset) : Bool :=
  multiAssetCmp a b = Ordering.lt

/-! ## `MultiAssets`: the canonically sorted asset bundle -/

/-- Maximum value of `u128`, the saturation bound of `saturating_add`. -/
def u128Max : Nat := 2 ^ 128 - 1

/-- Model of `u128::saturating_add`. -/
def saturatingAdd (a b : Nat) : Nat := min (a + b) u128Max

/-- The in-place merge scan of `MultiAssets::push`: find the first element
with the same `id` that is fungible and saturating-add the amount into it;
`none` if no such element exists. -/
def pushMerge (id : AssetId) (amount : Nat) : List MultiAsset → Option (List MultiAsset)
  | [] => none
  | b :: rest =>
    if b.id = id then
      match b.fungibility with
      | .Fungible n => some (⟨b.id, .Fungible (saturatingAdd n amount)⟩ :: rest)
      | .NonFungible _ => (pushMerge id amount rest).map (b :: ·)
    else (pushMerge id amount rest).map (b :: ·)

/-- Insertion into a sorted list; equals the source's `vec.push(a); vec.sort()`
on the sorted lists `MultiAssets` maintains by construction. -/
def sortedInsert (a : MultiAsset) : List MultiAsset → List MultiAsset
  | [] => [a]
  | b :: rest =>
    if multiAssetCmp a b = Ordering.lt then a :: b :: rest else b :: sortedInsert a rest

/-- Model of `MultiAssets::push`: merge into an existing fungible entry with the same
`id` under saturating addition, otherwise insert in canonical order. -/
def MultiAssets.push (s : List MultiAsset) (a : MultiAsset) : List MultiAsset :=
  match a.fungibility with
  | .Fungible amount =>
    match pushMerge a.id amount s with
    | some merged => merged
    | none => sortedInsert a s
  | .NonFungible _ => sortedInsert a s

/-! ## Location helpers

`chain_part`/`non_chain_part` live in the repository's `orml-traits`
location module (the `Parse` trait), which is not shipped under `src/`;
`append_with` and `reanchor` live in the external `xcm` crate.  They are
modelled from the spec. -/

/-- Modelled from the spec: `chain_part()` yields "the prefix identifying a
whole chain (parents + leading parachain junction) or the empty relative
root, returning absent if the location has no chain qualifier" — i.e. a
sibling parachain `(1, Parachain(id))`, the parent `(1, Here)`, or a child
parachain `(0, Parachain(id))`. -/
def chain_part (loc : MultiLocation) : Option MultiLocation :=
  match loc.parents, loc.interior with
  | 1, .Parachain id :: _ => some ⟨1, [.Parachain id]⟩
  | 1, _ => some ⟨1, []⟩
  | 0, .Parachain id :: _ => some ⟨0, [.Parachain id]⟩
  | _, _ => none

/-- Whether a junction qualifies as part of a chain prefix. -/
def isChainJunction : Junction → Bool
  | .Parachain _ => true
  | _ => false

/-- Modelled from the spec: `non_chain_part()` yields "the trailing interior
after the chain prefix", absent when nothing remains. -/
def non_chain_part (loc : MultiLocation) : Option MultiLocation :=
  let rest := loc.interior.dropWhile isChainJunction
  if rest = [] then none else some ⟨0, rest⟩

/-- Modelled from the spec (and the `xcm` crate's `append_with`, whose error
the pallet ignores with `let _ =`): extend the interior, leaving the location
unchanged when the combined interior would exceed the 8-junction bound. -/
def appendWith (loc : MultiLocation) (suffix : List Junction) : MultiLocation :=
  if loc.interior.length + suffix.length ≤ 8 then ⟨loc.parents, loc.interior ++ suffix⟩
  else loc

/-- Modelled from the spec: `reanchor(loc, target, ancestry)` — "if `target`
is an ancestor of the current frame, strip that many parents; if `target` is
a sibling, prepend `ancestry`; otherwise error `CannotReanchor`". -/
def reanchorLocation (loc target ancestry : MultiLocation) : Option MultiLocation :=
  if target.interior = [] ∧ target.parents ≤ loc.parents then
    some ⟨loc.parents - target.parents, loc.interior⟩
  else if 1 ≤ target.parents ∧ 1 ≤ loc.parents then
    some ⟨loc.parents - 1, ancestry.interior ++ loc.interior⟩
  else none

/-- Model of `MultiAsset::reanchored`: rewrite a `Concrete` id, keep `Abstract` ids
and the fungibility untouched. -/
def reanchorAsset (a : MultiAsset) (target ancestry : MultiLocation) : Option MultiAsset :=
  match a.id with
  | .Concrete loc =>
    (reanchorLocation loc target ancestry).map (fun l => ⟨.Concrete l, a.fungibility⟩)
  | .Abstract _ => some a

/-! ## Pallet model -/

/-- The routing classification (`TransferKind` in the source). -/
inductive TransferKind where
  | SelfReserveAsset
  | ToReserve
  | ToNonReserve
deriving DecidableEq, Repr

/-- The `OriginKind` of a `Transact` instruction. -/
inductive OriginKind where
  | Native
  | SovereignAccount
  | Superuser
  | Xcm
deriving DecidableEq, Repr

/-- The error enum of the pallet (`Error<T>`), restricted to the variants the
modelled functions can return, plus `panicked`, which marks the `expect`
panics inside the `half`/`subtract_fee` helpers. -/
inductive Err where
  | AssetHasNoReserve
  | NotCrossChainTransfer
  | InvalidDest
  | NotCrossChainTransferableCurrency
  | UnweighableMessage
  | XcmExecutionFailed
  | CannotReanchor
  | InvalidAsset
  | DistinctReserveForAssetAndFee
  | ZeroAmount
  | TooManyAssetsBeingSent
  | FeeNotEnough
  | NotSupportedMultiLocation
  | MinXcmFeeNotDefined
  | SendFailure
  | panicked
deriving DecidableEq, Repr

/-- XCM instructions emitted by the pallet.  Wildcard asset filters
(`assets: All.into()`) and the `WeightLimit::Limited` wrapper are constant at
every use site and are left implicit; `max_assets` and the inner programs are
kept.  Field order follows the struct fields actually set by the source. -/
inductive Instruction where
  | WithdrawAsset (assets : List MultiAsset)
  | BuyExecution (fees : MultiAsset) (weightLimit : Nat)
  | DepositAsset (maxAssets : Nat) (beneficiary : MultiLocation)
  | TransferReserveAsset (assets : List MultiAsset) (dest : MultiLocation)
      (xcm : List Instruction)
  | InitiateReserveWithdraw (reserve : MultiLocation) (xcm : List Instruction)
  | DepositReserveAsset (maxAssets : Nat) (dest : MultiLocation)
      (xcm : List Instruction)
  | DescendOrigin (interior : List Junction)
  | Transact (originKind : OriginKind) (requireWeightAtMost : Nat) (call : List Nat)
  | RefundSurplus
deriving Repr

/-- A program: `Xcm(vec![...])`. -/
abbrev Xcm := List Instruction

/-- The `TransferredMultiAssets` event payload (sender collapsed to `Nat`). -/
structure EventTMA where
  sender : Nat
  assets : List MultiAsset
  fee : MultiAsset
  dest : MultiLocation
deriving Repr

/-- Observable side effects of one dispatch: programs locally executed (and
thereby forwarded outbound by the executor), programs handed to the raw
transport, and deposited events. -/
inductive Action where
  | executed (msg : Xcm)
  | sent (dest : MultiLocation) (msg : Xcm)
  | event (e : EventTMA)
deriving Repr

/-- The injected configuration and external collaborators of the pallet.
`reserve`, `minXcmFee`, `selfLocation`, `ancestry`, the location filter and
the id conversions mirror the `Config` items; the weigher, executor and
transport only ever surface success or failure to the pallet, so they are
boolean switches. -/
structure Env where
  selfLocation : MultiLocation
  ancestry : MultiLocation
  reserve : MultiAsset → Option MultiLocation
  minXcmFee : MultiLocation → Option Nat
  multiLocationsFilter : MultiLocation → Bool
  maxAssetsForTransfer : Nat
  accountToLocation : Nat → MultiLocation
  currencyIdConvert : Nat → Option MultiLocation
  weigherOk : Bool
  execOk : Bool
  sendOk : Bool

/-- Returns amount if `asset` is fungible, or zero (`fungible_amount`). -/
def fungible_amount (asset : MultiAsset) : Nat :=
  match asset.fungibility with
  | .Fungible amount => amount
  | .NonFungible _ => 0

/-- Model of `u128::checked_div`. -/
def checked_div (a b : Nat) : Option Nat := if b = 0 then none else some (a / b)

/-- Model of `u128::checked_sub`. -/
def checked_sub (a b : Nat) : Option Nat := if b ≤ a then some (a - b) else none

/-- Model of `half`: divide the fungible amount by two; `none` marks the `expect`
panic (which `checked_div` by the constant 2 can never produce). -/
def half (asset : MultiAsset) : Option MultiAsset :=
  (checked_div (fungible_amount asset) 2).map (fun n => ⟨asset.id, .Fungible n⟩)

/-- Model of `subtract_fee`: subtract `amount` from the fungible amount; `none` marks
the `expect("fee too low; qed")` panic. -/
def subtract_fee (asset : MultiAsset) (amount : Nat) : Option MultiAsset :=
  (checked_sub (fungible_amount asset) amount).map (fun n => ⟨asset.id, .Fungible n⟩)

/-- Model of `ensure_valid_dest`: `dest` must decompose into a chain part and a
non-chain (recipient) part. -/
def ensure_valid_dest (dest : MultiLocation) :
    Except Err (MultiLocation × MultiLocation) :=
  match chain_part dest, non_chain_part dest with
  | some d, some recipient => .ok (d, recipient)
  | _, _ => .error .InvalidDest

/-- Model of `transfer_kind`: classify a transfer from the asset reserve and the
destination. -/
def transfer_kind (env : Env) (reserve : Option MultiLocation) (dest : MultiLocation) :
    Except Err (TransferKind × MultiLocation × MultiLocation × MultiLocation) :=
  match ensure_valid_dest dest with
  | .error e => .error e
  | .ok (dest, recipient) =>
    if dest = env.selfLocation then .error .NotCrossChainTransfer
    else
      match reserve with
      | none => .error .AssetHasNoReserve
      | some reserve =>
        .ok (if reserve = env.selfLocation then TransferKind.SelfReserveAsset
             else if reserve = dest then TransferKind.ToReserve
             else TransferKind.ToNonReserve,
             dest, reserve, recipient)

/-- Model of `deposit_asset`: deposit everything (`All`) up to `max_assets` to the
recipient. -/
def deposit_asset (recipient : MultiLocation) (maxAssets : Nat) : Instruction :=
  .DepositAsset maxAssets recipient

/-- Model of `buy_execution`: reanchor the fee asset into the frame of `at_loc` and
buy execution there, limited to `weight`. -/
def buy_execution (env : Env) (asset : MultiAsset) (at_loc : MultiLocation)
    (weight : Nat) : Except Err Instruction :=
  match reanchorAsset asset at_loc env.ancestry with
  | none => .error .CannotReanchor
  | some fees => .ok (.BuyExecution fees weight)

/-- Model of `transfer_self_reserve_asset`: one `TransferReserveAsset` program. -/
def transfer_self_reserve_asset (env : Env) (assets : List MultiAsset)
    (fee : MultiAsset) (dest recipient : MultiLocation) (dest_weight : Nat) :
    Except Err Xcm :=
  match buy_execution env fee dest dest_weight with
  | .error e => .error e
  | .ok be =>
    .ok [.TransferReserveAsset assets dest [be, deposit_asset recipient assets.length]]

/-- Model of `transfer_to_reserve`: withdraw locally, then `InitiateReserveWithdraw`
on the reserve. -/
def transfer_to_reserve (env : Env) (assets : List MultiAsset) (fee : MultiAsset)
    (reserve recipient : MultiLocation) (dest_weight : Nat) : Except Err Xcm :=
  match buy_execution env fee reserve dest_weight with
  | .error e => .error e
  | .ok be =>
    .ok [.WithdrawAsset assets,
      .InitiateReserveWithdraw reserve [be, deposit_asset recipient assets.length]]

/-- The `reanchored_dest` computation at the head of `transfer_to_non_reserve`:
when the reserve is the parent and the destination exactly a sibling
`X1(Parachain(id))`, rewrite the forwarded destination into the reserve-local
`(0, Parachain(id))`; otherwise keep `dest`. -/
def reanchoredDest (reserve dest : MultiLocation) : MultiLocation :=
  if reserve = MultiLocation.parent then
    match dest with
    | ⟨1, [.Parachain id]⟩ => (⟨0, [.Parachain id]⟩ : MultiLocation)
    | _ => dest
  else dest

/-- Model of `transfer_to_non_reserve`: route via the reserve, splitting the fee in
half between the reserve hop and the destination hop. -/
def transfer_to_non_reserve (env : Env) (assets : List MultiAsset) (fee : MultiAsset)
    (reserve dest recipient : MultiLocation) (dest_weight : Nat) : Except Err Xcm :=
  let reanchored_dest := reanchoredDest reserve dest
  match half fee with
  | none => .error Err.panicked
  | some halfFee =>
    match buy_execution env halfFee reserve dest_weight with
    | .error e => .error e
    | .ok be1 =>
      match buy_execution env halfFee dest dest_weight with
      | .error e => .error e
      | .ok be2 =>
        .ok [.WithdrawAsset assets,
          .InitiateReserveWithdraw reserve
            [be1,
              .DepositReserveAsset assets.length reanchored_dest
                [be2, deposit_asset recipient assets.length]]]

/-- Model of `execute_and_send_reserve_kind_xcm`: classify, optionally override the
recipient, build the program for the kind, weigh it and execute it locally
in credit (surfacing `UnweighableMessage` / `XcmExecutionFailed`); the
executed program is returned for the dispatch trace. -/
def execute_and_send_reserve_kind_xcm (env : Env) (origin_location : MultiLocation)
    (assets : List MultiAsset) (fee : MultiAsset) (reserve : Option MultiLocation)
    (dest : MultiLocation) (maybe_recipient_override : Option MultiLocation)
    (dest_weight : Nat) : Except Err Xcm :=
  -- origin_location is consumed by the executor, which the model reduces to
  -- a success switch
  let _ := origin_location
  match transfer_kind env reserve dest with
  | .error e => .error e
  | .ok (kind, dest, reserve, recipient) =>
    let recipient := maybe_recipient_override.getD recipient
    let built :=
      match kind with
      | .SelfReserveAsset =>
        transfer_self_reserve_asset env assets fee dest recipient dest_weight
      | .ToReserve => transfer_to_reserve env assets fee reserve recipient dest_weight
      | .ToNonReserve =>
        transfer_to_non_reserve env assets fee reserve dest recipient dest_weight
    match built with
    | .error e => .error e
    | .ok msg =>
      if env.weigherOk = true then
        if env.execOk = true then .ok msg
        else .error .XcmExecutionFailed
      else .error .UnweighableMessage


/-- Whether an asset passes the per-asset check of the reserve-agreement
loop: `matches!(asset.fun, Fungibility::Fungible(x) if !x.is_zero())`. -/
def isFungibleNonzero (a : MultiAsset) : Bool :=
  match a.fungibility with
  | .Fungible n => n ≠ 0
  | .NonFungible _ => false

/-- The reserve-agreement loop of `do_transfer_multiassets`: walk the bundle
in order, fix the non-fee reserve from the first asset differing from the fee
while the state is still unset (or unconditionally when the bundle has a
single asset), and once the state holds a reserve require every asset from
that point on to have exactly that reserve.  `single` is the precomputed
`asset_len == 1`; the `assets.get(i)` indexing of the source cannot fail and
is modelled by structural recursion. -/
def reserveLoop (env : Env) (fee : MultiAsset) (single : Bool) :
    List MultiAsset → Option MultiLocation → Except Err (Option MultiLocation)
  | [], st => .ok st
  | a :: rest, st =>
    if isFungibleNonzero a then
      let st1 := if (fee ≠ a ∧ st = none) ∨ single = true then env.reserve a else st
      match st1 with
      | some r =>
        if env.reserve a = some r then reserveLoop env fee single rest (some r)
        else .error .DistinctReserveForAssetAndFee
      | none => reserveLoop env fee single rest none
    else .error .InvalidAsset

/-- Model of `do_transfer_multiassets`: the transfer planner.  Returns the trace of
side effects performed before returning (the surrounding `#[transactional]`
rolls balance effects back on error, but the trace records what the body did
up to that point) together with the dispatch outcome. -/
def do_transfer_multiassets (env : Env) (who : Nat) (assets : List MultiAsset)
    (fee : MultiAsset) (dest : MultiLocation) (dest_weight : Nat)
    (override_recipient : Option MultiLocation) : List Action × Except Err Unit :=
  if ¬ assets.length ≤ env.maxAssetsForTransfer then
    ([], .error .TooManyAssetsBeingSent)
  else if ¬ env.multiLocationsFilter dest = true then
    ([], .error .NotSupportedMultiLocation)
  else
    let origin_location := env.accountToLocation who
    match reserveLoop env fee (assets.length == 1) assets none with
    | .error e => ([], .error e)
    | .ok non_fee_reserve =>
      let fee_reserve := env.reserve fee
      if fee_reserve ≠ non_fee_reserve then
        -- split case: fee routed via its own reserve
        if ¬ non_fee_reserve = chain_part dest then ([], .error .InvalidAsset)
        else
          match non_fee_reserve with
          | none => ([], .error .AssetHasNoReserve)
          | some reserve_location =>
            match env.minXcmFee reserve_location with
            | none => ([], .error .MinXcmFeeNotDefined)
            | some min_xcm_fee =>
              let fee_to_dest : MultiAsset := ⟨fee.id, .Fungible min_xcm_fee⟩
              if ¬ multiAssetLt fee_to_dest fee = true then ([], .error .FeeNotEnough)
              else
                let assets_to_dest := assets.foldl
                  (fun acc asset =>
                    MultiAssets.push acc (if fee ≠ asset then asset else fee_to_dest)) []
                match subtract_fee fee min_xcm_fee with
                | none => ([], .error .panicked)
                | some asset_to_fee_reserve =>
                  let assets_to_fee_reserve := MultiAssets.push [] asset_to_fee_reserve
                  match execute_and_send_reserve_kind_xcm env origin_location
                      assets_to_fee_reserve asset_to_fee_reserve fee_reserve dest
                      (some env.selfLocation) dest_weight with
                  | .error e => ([], .error e)
                  | .ok msgA =>
                    match execute_and_send_reserve_kind_xcm env origin_location
                        assets_to_dest fee_to_dest non_fee_reserve dest none
                        dest_weight with
                    | .error e => ([.executed msgA], .error e)
                    | .ok msgB =>
                      ([.executed msgA, .executed msgB,
                        .event ⟨who, assets, fee, dest⟩], .ok ())
      else
        match execute_and_send_reserve_kind_xcm env origin_location assets fee
            non_fee_reserve dest override_recipient dest_weight with
        | .error e => ([], .error e)
        | .ok msg => ([.executed msg, .event ⟨who, assets, fee, dest⟩], .ok ())

/-- Model of `send_transact`: reanchor the transact fee into the destination frame and
hand the `Transact` program to the raw transport. -/
def send_transact (env : Env) (transact_fee_location : MultiLocation)
    (transact_fee_amount : Nat) (dest_chain_location : MultiLocation)
    (origin_location_interior : List Junction) (dest_weight : Nat)
    (encoded_call_data : List Nat) (refund_recipient : MultiLocation) :
    Except Err Action :=
  match reanchorAsset ⟨.Concrete transact_fee_location, .Fungible transact_fee_amount⟩
      dest_chain_location env.ancestry with
  | none => .error .CannotReanchor
  | some transact_fee_asset =>
    let transact_fee_assets := MultiAssets.push [] transact_fee_asset
    let instructions : Xcm :=
      [.DescendOrigin origin_location_interior,
       .WithdrawAsset transact_fee_assets,
       .BuyExecution transact_fee_asset dest_weight,
       .Transact .SovereignAccount dest_weight encoded_call_data,
       .RefundSurplus,
       .DepositAsset transact_fee_assets.length refund_recipient]
    if env.sendOk then .ok (.sent dest_chain_location instructions)
    else .error .SendFailure

/-- Model of `do_transfer_with_transact`: transfer `amount` of the currency to the
destination chain with the recipient overridden to the sender's sovereign
sub-account, then send a `Transact` program funded by `transact_fee`. -/
def do_transfer_with_transact (env : Env) (who : Nat) (currency_id : Nat)
    (amount : Nat) (dest_chain_id : Nat) (dest_weight : Nat)
    (encoded_call_data : List Nat) (transact_fee_amount : Nat) :
    List Action × Except Err Unit :=
  if amount = 0 then ([], .error .ZeroAmount)
  else
    let origin_location := env.accountToLocation who
    let origin_location_interior := origin_location.interior
    let dest_chain_location :=
      appendWith ⟨1, [.Parachain dest_chain_id]⟩ origin_location_interior
    if ¬ env.multiLocationsFilter dest_chain_location = true then
      ([], .error .NotSupportedMultiLocation)
    else
      match env.currencyIdConvert currency_id with
      | none => ([], .error .NotCrossChainTransferableCurrency)
      | some transact_fee_location =>
        let transfer_asset : MultiAsset :=
          ⟨.Concrete transact_fee_location, .Fungible amount⟩
        let override_recipient := appendWith env.selfLocation origin_location_interior
        match do_transfer_multiassets env who [transfer_asset] transfer_asset
            dest_chain_location dest_weight (some override_recipient) with
        | (tr, .error e) => (tr, .error e)
        | (tr, .ok _) =>
          match chain_part dest_chain_location with
          | none => (tr, .error .InvalidDest)
          | some dest_chain =>
            match send_transact env transact_fee_location transact_fee_amount
                dest_chain origin_location_interior dest_weight encoded_call_data
                override_recipient with
            | .error e => (tr, .error e)
            | .ok act => (tr ++ [act], .ok ())

/-! ## Trace and program observers used by the theorems -/

/-- The asset bundle a program withdraws or transfers in its first
instruction — what the leg "carries". -/
def carried (msg : Xcm) : Option (List MultiAsset) :=
  match msg with
  | .TransferReserveAsset assets _ _ :: _ => some assets
  | .WithdrawAsset assets :: _ => some assets
  | _ => none

/-- The chain a program is addressed to: the `dest` of a single
`TransferReserveAsset`, or the `reserve` of a withdraw-then-initiate pair. -/
def outboundTarget (msg : Xcm) : Option MultiLocation :=
  match msg with
  | [.TransferReserveAsset _ d _] => some d
  | [.WithdrawAsset _, .InitiateReserveWithdraw r _] => some r
  | _ => none

/-- All `BuyExecution` fee amounts in a program, in order, recursing into
nested programs. -/
def buyExecAmounts : List Instruction → List Nat
  | [] => []
  | .BuyExecution fees _ :: rest => fungible_amount fees :: buyExecAmounts rest
  | .TransferReserveAsset _ _ xcm :: rest => buyExecAmounts xcm ++ buyExecAmounts rest
  | .InitiateReserveWithdraw _ xcm :: rest => buyExecAmounts xcm ++ buyExecAmounts rest
  | .DepositReserveAsset _ _ xcm :: rest => buyExecAmounts xcm ++ buyExecAmounts rest
  | _ :: rest => buyExecAmounts rest

/-- All `DepositAsset` beneficiaries in a program, in order, recursing into
nested programs. -/
def depositBeneficiaries : List Instruction → List MultiLocation
  | [] => []
  | .DepositAsset _ b :: rest => b :: depositBeneficiaries rest
  | .TransferReserveAsset _ _ xcm :: rest =>
    depositBeneficiaries xcm ++ depositBeneficiaries rest
  | .InitiateReserveWithdraw _ xcm :: rest =>
    depositBeneficiaries xcm ++ depositBeneficiaries rest
  | .DepositReserveAsset _ _ xcm :: rest =>
    depositBeneficiaries xcm ++ depositBeneficiaries rest
  | _ :: rest => depositBeneficiaries rest

/-- The programs locally executed in a trace, in order. -/
def executedPrograms (tr : List Action) : List Xcm :=
  tr.filterMap fun a =>
    match a with
    | .executed msg => some msg
    | _ => none

/-- Whether a trace action is an event deposit. -/
def isEventAction : Action → Bool
  | .event _ => true
  | _ => false

/-- Follows the claim's words (C7): decompose `dest` into chain part and
non-chain part (`InvalidDest` when either is absent), reject a chain part
equal to `self_location` with `NotCrossChainTransfer`, reject an absent
reserve with `AssetHasNoReserve`, then yield `SelfReserveAsset` when the
reserve is `self_location`, `ToReserve` when it equals the chain part of
`dest`, and `ToNonReserve` in every other case. -/
def transferKindSpec (env : Env) (reserve : Option MultiLocation)
    (dest : MultiLocation) :
    Except Err (TransferKind × MultiLocation × MultiLocation × MultiLocation) :=
  match chain_part dest, non_chain_part dest with
  | none, _ => .error .InvalidDest
  | some _, none => .error .InvalidDest
  | some chainp, some nonchain =>
    if chainp = env.selfLocation then .error .NotCrossChainTransfer
    else
      match reserve with
      | none => .error .AssetHasNoReserve
      | some r =>
        .ok (if r = env.selfLocation then TransferKind.SelfReserveAsset
             else if r = chainp then TransferKind.ToReserve
             else TransferKind.ToNonReserve,
             chainp, r, nonchain)


/-- The first executed program of a trace (`[]` when there is none). -/
def firstExecuted (tr : List Action) : Xcm :=
  match tr with
  | .executed m :: _ => m
  | _ => []

/-! ## Concrete test topology

Self is parachain 2000 (`(1, Parachain 2000)` relative, ancestry
`(0, Parachain 2000)`); the hub is the parent `(1, Here)`; parachain 3000 is
a sibling.  Hub-identified assets reserve on the hub, `Parachain p`-prefixed
assets on that sibling. -/

def envA : Env where
  selfLocation := ⟨1, [.Parachain 2000]⟩
  ancestry := ⟨0, [.Parachain 2000]⟩
  reserve := fun a =>
    match a.id with
    | .Concrete ⟨1, []⟩ => some ⟨1, []⟩
    | .Concrete ⟨1, .Parachain p :: _⟩ => some ⟨1, [.Parachain p]⟩
    | _ => none
  minXcmFee := fun l => if l = ⟨1, [.Parachain 3000]⟩ then some 3000 else none
  multiLocationsFilter := fun _ => true
  maxAssetsForTransfer := 4
  accountToLocation := fun n => ⟨0, [.AccountId32 n]⟩
  currencyIdConvert := fun n =>
    if n = 0 then some ⟨1, [.Parachain 2000]⟩ else none
  weigherOk := true
  execOk := true
  sendOk := true

/-- Like `envA`, but the minimum xcm fee is registered only for the hub (the
fee reserve), not for the sibling parachain 3000 (the non-fee reserve). -/
def envB : Env :=
  { envA with minXcmFee := fun l => if l = ⟨1, []⟩ then some 3000 else none }

/-- Like `envA`, with `GeneralIndex`-headed asset ids also reserving on the
hub. -/
def envC : Env :=
  { envA with
    reserve := fun a =>
      match a.id with
      | .Concrete ⟨1, []⟩ => some ⟨1, []⟩
      | .Concrete ⟨1, .Parachain p :: _⟩ => some ⟨1, [.Parachain p]⟩
      | .Concrete ⟨1, .GeneralIndex _ :: _⟩ => some ⟨1, []⟩
      | _ => none }

/-- The hub-reserve fee asset of the split scenario (spec scenario 4). -/
def feeHub : MultiAsset := ⟨.Concrete ⟨1, []⟩, .Fungible 10000⟩

/-- A sibling-reserve asset whose reserve is parachain 3000. -/
def assetP3 : MultiAsset :=
  ⟨.Concrete ⟨1, [.Parachain 3000, .GeneralIndex 1]⟩, .Fungible 500⟩

/-- A self-reserve asset addressed through the absolute sibling path. -/
def selfAsset : MultiAsset := ⟨.Concrete ⟨1, [.Parachain 2000]⟩, .Fungible 10000⟩

/-- Bundle entries for the C5 scenario: both reserve on parachain 3000 and
sort before `feeX`. -/
def a1X : MultiAsset :=
  ⟨.Concrete ⟨1, [.Parachain 3000, .GeneralIndex 1]⟩, .Fungible 100⟩

def a2X : MultiAsset :=
  ⟨.Concrete ⟨1, [.Parachain 3000, .GeneralIndex 2]⟩, .Fungible 200⟩

/-- A hub-reserve fee (under `envC`) whose id sorts after `a1X` and `a2X`. -/
def feeX : MultiAsset :=
  ⟨.Concrete ⟨1, [.GeneralIndex 5, .GeneralIndex 5]⟩, .Fungible 10000⟩

/-- Destination: an account on sibling parachain 3000. -/
def destA : MultiLocation := ⟨1, [.Parachain 3000, .AccountId32 1]⟩

/-! ## Order lemmas

Reflexivity and antisymmetry facts about the modelled derived `Ord`,
needed to reason about the canonical sorting of `MultiAssets`. -/

theorem eq_then (p : Ordering) : Ordering.eq.then p = p := rfl

theorem lt_then (p : Ordering) : Ordering.lt.then p = .lt := rfl

theorem gt_then (p : Ordering) : Ordering.gt.then p = .gt := rfl

theorem then_swap (o p : Ordering) : (o.then p).swap = o.swap.then p.swap := by
  cases o <;> rfl

theorem natCmp_self (a : Nat) : natCmp a a = .eq := by
  simp [natCmp]

theorem natCmp_lt_iff {a b : Nat} : natCmp a b = .lt ↔ a < b := by
  unfold natCmp
  split
  · simp [*]
  · split <;> simp <;> omega

theorem natCmp_swap (a b : Nat) : natCmp b a = (natCmp a b).swap := by
  unfold natCmp
  by_cases h1 : a < b
  · rw [if_pos h1, if_neg (Nat.lt_asymm h1), if_neg (by omega : ¬ b = a)]
    rfl
  · by_cases h2 : a = b
    · subst h2
      simp only [Nat.lt_irrefl, if_false, if_pos rfl]
      rfl
    · have h3 : b < a := by omega
      rw [if_pos h3, if_neg h1, if_neg h2]
      rfl

theorem junctionCmp_self (j : Junction) : junctionCmp j j = .eq := by
  simp only [junctionCmp, natCmp_self, eq_then]

theorem junctionCmp_swap (a b : Junction) : junctionCmp b a = (junctionCmp a b).swap := by
  simp only [junctionCmp]
  rw [then_swap, ← natCmp_swap, ← natCmp_swap]

theorem lexCmp_self (f : α → α → Ordering) (hf : ∀ x, f x x = .eq) (l : List α) :
    lexCmp f l l = .eq := by
  induction l with
  | nil => rfl
  | cons a rest ih => simp only [lexCmp, hf, eq_then, ih]

theorem lexCmp_swap (f : α → α → Ordering) (hf : ∀ x y, f y x = (f x y).swap) :
    ∀ l1 l2, lexCmp f l2 l1 = (lexCmp f l1 l2).swap
  | [], [] => rfl
  | [], _ :: _ => rfl
  | _ :: _, [] => rfl
  | a :: xs, b :: ys => by
    simp only [lexCmp]
    rw [then_swap, ← hf, ← lexCmp_swap f hf xs ys]

theorem junctionListCmp_self (l : List Junction) : junctionListCmp l l = .eq := by
  simp only [junctionListCmp, natCmp_self, eq_then]
  exact lexCmp_self junctionCmp junctionCmp_self l

theorem junctionListCmp_swap (a b : List Junction) :
    junctionListCmp b a = (junctionListCmp a b).swap := by
  simp only [junctionListCmp]
  rw [then_swap, ← natCmp_swap, ← lexCmp_swap junctionCmp junctionCmp_swap]

theorem locationCmp_self (l : MultiLocation) : locationCmp l l = .eq := by
  simp only [locationCmp, natCmp_self, eq_then, junctionListCmp_self]

theorem locationCmp_swap (a b : MultiLocation) : locationCmp b a = (locationCmp a b).swap := by
  simp only [locationCmp]
  rw [then_swap, ← natCmp_swap, ← junctionListCmp_swap]

theorem assetIdCmp_self (i : AssetId) : assetIdCmp i i = .eq := by
  cases i with
  | Concrete l => simp only [assetIdCmp, locationCmp_self]
  | Abstract k => simp only [assetIdCmp]; exact lexCmp_self natCmp natCmp_self k

theorem assetIdCmp_swap (a b : AssetId) : assetIdCmp b a = (assetIdCmp a b).swap := by
  cases a with
  | Concrete la =>
    cases b with
    | Concrete lb => simp only [assetIdCmp]; rw [← locationCmp_swap]
    | Abstract kb => rfl
  | Abstract ka =>
    cases b with
    | Concrete lb => rfl
    | Abstract kb =>
      simp only [assetIdCmp]
      rw [← lexCmp_swap natCmp natCmp_swap]

theorem assetIdCmp_lt_ne {a b : AssetId} (h : assetIdCmp a b = .lt) : a ≠ b := by
  intro he
  rw [he, assetIdCmp_self] at h
  cases h

theorem fungibilityCmp_self (f : Fungibility) : fungibilityCmp f f = .eq := by
  cases f <;> simp [fungibilityCmp, natCmp_self]

/-- The split-fee guard for a fungible fee with the fee's own id is exactly
the amount comparison. -/
theorem multiAssetLt_same_id_fungible {i : AssetId} {m a : Nat} :
    multiAssetLt ⟨i, .Fungible m⟩ ⟨i, .Fungible a⟩ = true ↔ m < a := by
  simp [multiAssetLt, multiAssetCmp, assetIdCmp_self, eq_then, fungibilityCmp,
    natCmp_lt_iff]

/-- The helper `half` can never hit its `expect` panic: the divisor is the constant 2. -/
theorem half_total (a : MultiAsset) :
    half a = some ⟨a.id, .Fungible (fungible_amount a / 2)⟩ := by
  simp [half, checked_div]

/-- The helper `subtract_fee` yields a value whenever the subtrahend is not larger. -/
theorem subtract_fee_some (a : MultiAsset) (m : Nat) (h : m ≤ fungible_amount a) :
    subtract_fee a m = some ⟨a.id, .Fungible (fungible_amount a - m)⟩ := by
  simp [subtract_fee, checked_sub, h]

/-! ## Canonical bundles are fixed points of the push fold -/

/-- Strict id-sortedness: the canonical form of an all-fungible bundle
(`MultiAssets` deduplicates fungibles by id and sorts by id first). -/
def IdSorted (l : List MultiAsset) : Prop :=
  l.Pairwise (fun x y => assetIdCmp x.id y.id = .lt)

theorem sortedInsert_append (a : MultiAsset) (l : List MultiAsset)
    (h : ∀ b ∈ l, assetIdCmp b.id a.id = .lt) : sortedInsert a l = l ++ [a] := by
  induction l with
  | nil => rfl
  | cons b rest ih =>
    have hb : assetIdCmp b.id a.id = .lt := h b (List.mem_cons_self b rest)
    have hab : assetIdCmp a.id b.id = .gt := by
      rw [assetIdCmp_swap, hb]
      rfl
    have hcmp : multiAssetCmp a b = .gt := by
      simp only [multiAssetCmp, hab, gt_then]
    have ih2 := ih fun c hc => h c (List.mem_cons_of_mem b hc)
    simp [sortedInsert, hcmp, ih2]

theorem pushMerge_none (id : AssetId) (amt : Nat) (l : List MultiAsset)
    (h : ∀ b ∈ l, b.id ≠ id) : pushMerge id amt l = none := by
  induction l with
  | nil => rfl
  | cons b rest ih =>
    have hb : b.id ≠ id := h b (List.mem_cons_self b rest)
    have ih2 := ih fun c hc => h c (List.mem_cons_of_mem b hc)
    simp [pushMerge, if_neg hb, ih2]

theorem push_append (l : List MultiAsset) (a : MultiAsset)
    (h : ∀ b ∈ l, assetIdCmp b.id a.id = .lt) :
    MultiAssets.push l a = l ++ [a] := by
  have hne : ∀ b ∈ l, b.id ≠ a.id := by
    intro b hb he
    exact assetIdCmp_lt_ne (h b hb) he
  cases hf : a.fungibility with
  | Fungible amt =>
    simp only [MultiAssets.push, hf, pushMerge_none a.id amt l hne,
      sortedInsert_append a l h]
  | NonFungible i =>
    simp only [MultiAssets.push, hf, sortedInsert_append a l h]

theorem foldPush_go (l : List MultiAsset) :
    ∀ acc : List MultiAsset,
      (∀ b ∈ acc, ∀ c ∈ l, assetIdCmp b.id c.id = .lt) → IdSorted l →
      l.foldl MultiAssets.push acc = acc ++ l := by
  induction l with
  | nil => intro acc _ _; simp
  | cons a rest ih =>
    intro acc hacc hsort
    have hpush : MultiAssets.push acc a = acc ++ [a] := by
      apply push_append
      intro b hb
      exact hacc b hb a (List.mem_cons_self a rest)
    have hsort1 : IdSorted rest := (List.pairwise_cons.mp hsort).2
    have hhead : ∀ c ∈ rest, assetIdCmp a.id c.id = .lt :=
      (List.pairwise_cons.mp hsort).1
    simp only [List.foldl_cons, hpush]
    rw [ih (acc ++ [a]) ?_ hsort1]
    · simp
    · intro b hb c hc
      rcases List.mem_append.mp hb with hb | hb
      · exact hacc b hb c (List.mem_cons_of_mem a hc)
      · rw [List.mem_singleton.mp hb]
        exact hhead c hc

/-- A canonically id-sorted bundle is a fixed point of pushing its elements
one by one into the empty bundle. -/
theorem foldPush_id (l : List MultiAsset) (hsort : IdSorted l) :
    l.foldl MultiAssets.push [] = l := by
  have := foldPush_go l [] (by intro b hb; cases hb) hsort
  simpa using this

/-! ## Characterizations of the classification and the program builders -/

theorem ensure_valid_dest_ok {dest d recip : MultiLocation}
    (h : ensure_valid_dest dest = .ok (d, recip)) :
    chain_part dest = some d ∧ non_chain_part dest = some recip := by
  unfold ensure_valid_dest at h
  split at h
  · rename_i d0 recip0 hc hn
    injection h with h1
    cases h1
    exact ⟨hc, hn⟩
  · exact Except.noConfusion h

theorem transfer_kind_ok {env : Env} {res : Option MultiLocation}
    {dest : MultiLocation} {k : TransferKind} {d r recip : MultiLocation}
    (h : transfer_kind env res dest = .ok (k, d, r, recip)) :
    chain_part dest = some d ∧ non_chain_part dest = some recip ∧ res = some r ∧
      d ≠ env.selfLocation ∧
      k = (if r = env.selfLocation then TransferKind.SelfReserveAsset
           else if r = d then TransferKind.ToReserve else TransferKind.ToNonReserve) := by
  unfold transfer_kind at h
  split at h
  · exact Except.noConfusion h
  · rename_i d0 recip0 heq
    split at h
    · exact Except.noConfusion h
    · rename_i hd
      split at h
      · exact Except.noConfusion h
      · rename_i rv
        injection h with h1
        simp only [Prod.mk.injEq] at h1
        obtain ⟨hk, hd0, hrv, hrec⟩ := h1
        subst hd0
        subst hrv
        subst hrec
        obtain ⟨hc, hn⟩ := ensure_valid_dest_ok heq
        exact ⟨hc, hn, rfl, hd, hk.symm⟩

theorem transfer_self_reserve_asset_ok {env : Env} {assets : List MultiAsset}
    {fee : MultiAsset} {dest recipient : MultiLocation} {w : Nat} {msg : Xcm}
    (h : transfer_self_reserve_asset env assets fee dest recipient w = .ok msg) :
    ∃ feeR, reanchorAsset fee dest env.ancestry = some feeR ∧
      msg = [.TransferReserveAsset assets dest
        [.BuyExecution feeR w, .DepositAsset assets.length recipient]] := by
  unfold transfer_self_reserve_asset buy_execution deposit_asset at h
  split at h
  · exact Except.noConfusion h
  · rename_i be hbe
    injection h with h1
    split at hbe
    · exact Except.noConfusion hbe
    · rename_i fees hre
      injection hbe with h2
      exact ⟨fees, hre, by rw [← h1, ← h2]⟩

theorem transfer_to_reserve_ok {env : Env} {assets : List MultiAsset}
    {fee : MultiAsset} {reserve recipient : MultiLocation} {w : Nat} {msg : Xcm}
    (h : transfer_to_reserve env assets fee reserve recipient w = .ok msg) :
    ∃ feeR, reanchorAsset fee reserve env.ancestry = some feeR ∧
      msg = [.WithdrawAsset assets,
        .InitiateReserveWithdraw reserve
          [.BuyExecution feeR w, .DepositAsset assets.length recipient]] := by
  unfold transfer_to_reserve buy_execution deposit_asset at h
  split at h
  · exact Except.noConfusion h
  · rename_i be hbe
    injection h with h1
    split at hbe
    · exact Except.noConfusion hbe
    · rename_i fees hre
      injection hbe with h2
      exact ⟨fees, hre, by rw [← h1, ← h2]⟩

theorem transfer_to_non_reserve_ok {env : Env} {assets : List MultiAsset}
    {fee : MultiAsset} {reserve dest recipient : MultiLocation} {w : Nat} {msg : Xcm}
    (h : transfer_to_non_reserve env assets fee reserve dest recipient w = .ok msg) :
    ∃ fee1 fee2,
      reanchorAsset ⟨fee.id, .Fungible (fungible_amount fee / 2)⟩ reserve env.ancestry
        = some fee1 ∧
      reanchorAsset ⟨fee.id, .Fungible (fungible_amount fee / 2)⟩ dest env.ancestry
        = some fee2 ∧
      msg = [.WithdrawAsset assets,
        .InitiateReserveWithdraw reserve
          [.BuyExecution fee1 w,
            .DepositReserveAsset assets.length (reanchoredDest reserve dest)
              [.BuyExecution fee2 w, .DepositAsset assets.length recipient]]] := by
  unfold transfer_to_non_reserve buy_execution deposit_asset at h
  rw [half_total] at h
  dsimp only at h
  split at h
  · exact Except.noConfusion h
  · rename_i be1 hbe1
    split at h
    · exact Except.noConfusion h
    · rename_i be2 hbe2
      injection h with h1
      split at hbe1
      · exact Except.noConfusion hbe1
      · rename_i fees1 hre1
        injection hbe1 with h2
        split at hbe2
        · exact Except.noConfusion hbe2
        · rename_i fees2 hre2
          injection hbe2 with h3
          refine ⟨fees1, fees2, hre1, hre2, ?_⟩
          subst h1
          rw [← h2, ← h3]

/-- A successful `execute_and_send_reserve_kind_xcm` call always executes a
program that carries exactly the `assets` argument, is addressed to the
destination chain when the reserve is self and to the reserve otherwise, and
deposits to the override recipient when one is given. -/
theorem execute_ok_shape {env : Env} {o : MultiLocation} {assets : List MultiAsset}
    {fee : MultiAsset} {res : Option MultiLocation} {dest : MultiLocation}
    {ov : Option MultiLocation} {w : Nat} {msg : Xcm}
    (h : execute_and_send_reserve_kind_xcm env o assets fee res dest ov w = .ok msg) :
    ∃ k d r recip, transfer_kind env res dest = .ok (k, d, r, recip) ∧
      carried msg = some assets ∧
      outboundTarget msg = some (if r = env.selfLocation then d else r) ∧
      depositBeneficiaries msg = [ov.getD recip] := by
  unfold execute_and_send_reserve_kind_xcm at h
  dsimp only at h
  split at h
  · exact Except.noConfusion h
  · rename_i k d r recip htk
    refine ⟨k, d, r, recip, htk, ?_⟩
    obtain ⟨hc, hn, hres, hd, hk⟩ := transfer_kind_ok htk
    cases k with
    | SelfReserveAsset =>
      have hr : r = env.selfLocation := by
        by_cases hr : r = env.selfLocation
        · exact hr
        · rw [if_neg hr] at hk
          by_cases hrd : r = d
          · rw [if_pos hrd] at hk
            exact TransferKind.noConfusion hk
          · rw [if_neg hrd] at hk
            exact TransferKind.noConfusion hk
      dsimp only at h
      split at h
      · exact Except.noConfusion h
      · rename_i msg0 hbuilt
        split at h
        · split at h
          · injection h with h1
            subst h1
            obtain ⟨feeR, hre, hmsg⟩ := transfer_self_reserve_asset_ok hbuilt
            subst hmsg
            rw [if_pos hr]
            refine ⟨rfl, rfl, ?_⟩
            simp [depositBeneficiaries]
          · exact Except.noConfusion h
        · exact Except.noConfusion h
    | ToReserve =>
      have hrd : r = d := by
        by_cases hr : r = env.selfLocation
        · rw [if_pos hr] at hk
          exact TransferKind.noConfusion hk
        · rw [if_neg hr] at hk
          by_cases hrd : r = d
          · exact hrd
          · rw [if_neg hrd] at hk
            exact TransferKind.noConfusion hk
      dsimp only at h
      split at h
      · exact Except.noConfusion h
      · rename_i msg0 hbuilt
        split at h
        · split at h
          · injection h with h1
            subst h1
            obtain ⟨feeR, hre, hmsg⟩ := transfer_to_reserve_ok hbuilt
            subst hmsg
            have hfix : (if r = env.selfLocation then d else r) = r := by
              by_cases hr : r = env.selfLocation
              · rw [if_pos hr, ← hrd]
              · rw [if_neg hr]
            rw [hfix]
            refine ⟨rfl, rfl, ?_⟩
            simp [depositBeneficiaries]
          · exact Except.noConfusion h
        · exact Except.noConfusion h
    | ToNonReserve =>
      have hr : ¬ r = env.selfLocation := by
        intro hr
        rw [if_pos hr] at hk
        exact TransferKind.noConfusion hk
      dsimp only at h
      split at h
      · exact Except.noConfusion h
      · rename_i msg0 hbuilt
        split at h
        · split at h
          · injection h with h1
            subst h1
            obtain ⟨fee1, fee2, hre1, hre2, hmsg⟩ := transfer_to_non_reserve_ok hbuilt
            subst hmsg
            rw [if_neg hr]
            refine ⟨rfl, rfl, ?_⟩
            simp [depositBeneficiaries]
          · exact Except.noConfusion h
        · exact Except.noConfusion h

theorem ensure_valid_dest_error {dest : MultiLocation} {e : Err}
    (h : ensure_valid_dest dest = .error e) : e = .InvalidDest := by
  unfold ensure_valid_dest at h
  split at h
  · exact Except.noConfusion h
  · injection h with h1
    exact h1.symm

theorem buy_execution_error {env : Env} {asset : MultiAsset} {at_loc : MultiLocation}
    {w : Nat} {e : Err} (h : buy_execution env asset at_loc w = .error e) :
    e = .CannotReanchor := by
  unfold buy_execution at h
  split at h
  · injection h with h1
    exact h1.symm
  · exact Except.noConfusion h

theorem transfer_kind_error {env : Env} {res : Option MultiLocation}
    {dest : MultiLocation} {e : Err} (h : transfer_kind env res dest = .error e) :
    e = .InvalidDest ∨ e = .NotCrossChainTransfer ∨ e = .AssetHasNoReserve := by
  unfold transfer_kind at h
  split at h
  · rename_i e0 hevd
    injection h with h1
    subst h1
    exact Or.inl (ensure_valid_dest_error hevd)
  · rename_i d0 recip0 hevd
    split at h
    · injection h with h1
      subst h1
      exact Or.inr (Or.inl rfl)
    · split at h
      · injection h with h1
        subst h1
        exact Or.inr (Or.inr rfl)
      · exact Except.noConfusion h

/-- No builder and no gate of `execute_and_send_reserve_kind_xcm` can surface
the `panicked` marker: the only panic candidates are the `expect`s in
`half` (total by `half_total`). -/
theorem execute_error_ne_panic {env : Env} {o : MultiLocation}
    {assets : List MultiAsset} {fee : MultiAsset} {res : Option MultiLocation}
    {dest : MultiLocation} {ov : Option MultiLocation} {w : Nat} {e : Err}
    (h : execute_and_send_reserve_kind_xcm env o assets fee res dest ov w = .error e) :
    e ≠ .panicked := by
  unfold execute_and_send_reserve_kind_xcm at h
  dsimp only at h
  split at h
  · rename_i e0 htk
    injection h with h1
    subst h1
    rcases transfer_kind_error htk with h1 | h1 | h1 <;> subst h1 <;>
      exact fun he => Err.noConfusion he
  · rename_i k d r recip htk
    cases k with
    | SelfReserveAsset =>
      dsimp only at h
      split at h
      · rename_i e0 hbuilt
        injection h with h1
        subst h1
        unfold transfer_self_reserve_asset at hbuilt
        split at hbuilt
        · rename_i e1 hbe
          injection hbuilt with h2
          subst h2
          rw [buy_execution_error hbe]
          exact fun he => Err.noConfusion he
        · exact Except.noConfusion hbuilt
      · split at h
        · split at h
          · exact Except.noConfusion h
          · injection h with h1
            subst h1
            exact fun he => Err.noConfusion he
        · injection h with h1
          subst h1
          exact fun he => Err.noConfusion he
    | ToReserve =>
      dsimp only at h
      split at h
      · rename_i e0 hbuilt
        injection h with h1
        subst h1
        unfold transfer_to_reserve at hbuilt
        split at hbuilt
        · rename_i e1 hbe
          injection hbuilt with h2
          subst h2
          rw [buy_execution_error hbe]
          exact fun he => Err.noConfusion he
        · exact Except.noConfusion hbuilt
      · split at h
        · split at h
          · exact Except.noConfusion h
          · injection h with h1
            subst h1
            exact fun he => Err.noConfusion he
        · injection h with h1
          subst h1
          exact fun he => Err.noConfusion he
    | ToNonReserve =>
      dsimp only at h
      split at h
      · rename_i e0 hbuilt
        injection h with h1
        subst h1
        unfold transfer_to_non_reserve at hbuilt
        rw [half_total] at hbuilt
        dsimp only at hbuilt
        split at hbuilt
        · rename_i e1 hbe
          injection hbuilt with h2
          subst h2
          rw [buy_execution_error hbe]
          exact fun he => Err.noConfusion he
        · rename_i be1 hbe1
          split at hbuilt
          · rename_i e1 hbe
            injection hbuilt with h2
            subst h2
            rw [buy_execution_error hbe]
            exact fun he => Err.noConfusion he
          · exact Except.noConfusion hbuilt
      · split at h
        · split at h
          · exact Except.noConfusion h
          · injection h with h1
            subst h1
            exact fun he => Err.noConfusion he
        · injection h with h1
          subst h1
          exact fun he => Err.noConfusion he

/-! ## Properties of the reserve-agreement loop -/

theorem reserveLoop_append (env : Env) (fee : MultiAsset) (single : Bool)
    (l1 l2 : List MultiAsset) (st : Option MultiLocation) :
    reserveLoop env fee single (l1 ++ l2) st =
      match reserveLoop env fee single l1 st with
      | .ok st1 => reserveLoop env fee single l2 st1
      | .error e => .error e := by
  induction l1 generalizing st with
  | nil => rfl
  | cons a rest ih =>
    rw [List.cons_append]
    simp only [reserveLoop]
    split
    · split
      · split
        · exact ih _
        · rfl
      · exact ih _
    · rfl

/-- Once the loop state holds a reserve (and the bundle is not a singleton),
the state never changes and every remaining asset must have exactly that
reserve. -/
theorem reserveLoop_some (env : Env) (fee : MultiAsset) (l : List MultiAsset)
    (s : MultiLocation) (r : Option MultiLocation)
    (h : reserveLoop env fee false l (some s) = .ok r) :
    r = some s ∧ ∀ a ∈ l, env.reserve a = some s := by
  induction l with
  | nil =>
    injection h with h1
    exact ⟨h1.symm, by intro a ha; cases ha⟩
  | cons a rest ih =>
    unfold reserveLoop at h
    split at h
    · have hcond : ¬ ((fee ≠ a ∧ (some s : Option MultiLocation) = none) ∨ false = true) := by
        simp
      rw [if_neg hcond] at h
      dsimp only at h
      split at h
      · rename_i hra
        obtain ⟨h1, h2⟩ := ih h
        refine ⟨h1, ?_⟩
        intro b hb
        rcases List.mem_cons.mp hb with hb | hb
        · rw [hb]
          exact hra
        · exact h2 b hb
      · exact Except.noConfusion h
    · exact Except.noConfusion h

/-- In a multi-asset bundle, once the non-fee reserve has been fixed, any
later fungible asset whose reserve differs makes the loop fail with
`DistinctReserveForAssetAndFee`. -/
theorem reserveLoop_distinct_error (env : Env) (fee : MultiAsset)
    (pre : List MultiAsset) (b : MultiAsset) (post : List MultiAsset)
    (r : MultiLocation)
    (hpre : reserveLoop env fee false pre none = .ok (some r))
    (hb : isFungibleNonzero b = true)
    (hbr : env.reserve b ≠ some r) :
    reserveLoop env fee false (pre ++ b :: post) none =
      .error .DistinctReserveForAssetAndFee := by
  rw [reserveLoop_append, hpre]
  dsimp only
  unfold reserveLoop
  rw [if_pos hb]
  have hcond : ¬ ((fee ≠ b ∧ (some r : Option MultiLocation) = none) ∨ false = true) := by
    simp
  rw [if_neg hcond]
  dsimp only
  rw [if_neg hbr]

/-- If the loop over a bundle with all reserves defined succeeds starting
from the empty state and ends in a state different from the fee's reserve,
then every entry strictly before any occurrence of the fee is the fee
itself. -/
theorem reserveLoop_fee_first (env : Env) (fee : MultiAsset) :
    ∀ (l : List MultiAsset) (r : Option MultiLocation),
      reserveLoop env fee false l none = .ok r →
      (∀ a ∈ l, (env.reserve a).isSome) →
      env.reserve fee ≠ r →
      ∀ i j (hi : i < l.length) (hj : j < l.length), i < j →
        l.get ⟨j, hj⟩ = fee → l.get ⟨i, hi⟩ = fee := by
  intro l
  induction l with
  | nil =>
    intro r _ _ _ i j _ hj
    exact absurd hj (by simp)
  | cons a rest ih =>
    intro r hloop hres hdiff i j hi hj hij hjf
    unfold reserveLoop at hloop
    split at hloop
    · rename_i hfz
      by_cases hfa : fee = a
      · have hcond : ¬ ((fee ≠ a ∧ (none : Option MultiLocation) = none) ∨ false = true) := by
          simp [hfa]
        rw [if_neg hcond] at hloop
        dsimp only at hloop
        cases i with
        | zero => exact hfa.symm
        | succ i0 =>
          cases j with
          | zero => exact absurd hij (by omega)
          | succ j0 =>
            have hres2 : ∀ b ∈ rest, (env.reserve b).isSome := fun b hb =>
              hres b (List.mem_cons_of_mem a hb)
            have hjf2 : rest.get ⟨j0, Nat.lt_of_succ_lt_succ hj⟩ = fee := by
              simpa using hjf
            have hgoal := ih r hloop hres2 hdiff i0 j0
              (Nat.lt_of_succ_lt_succ hi) (Nat.lt_of_succ_lt_succ hj)
              (by omega) hjf2
            simpa using hgoal
      · have hcond : ((fee ≠ a ∧ (none : Option MultiLocation) = none) ∨ false = true) :=
          Or.inl ⟨hfa, rfl⟩
        rw [if_pos hcond] at hloop
        obtain ⟨s, hs⟩ := Option.isSome_iff_exists.mp (hres a (List.mem_cons_self a rest))
        rw [hs] at hloop
        dsimp only at hloop
        split at hloop
        · obtain ⟨hr, hall⟩ := reserveLoop_some env fee rest s r hloop
          exfalso
          cases j with
          | zero => exact hfa hjf.symm
          | succ j0 =>
            have hjf2 : rest.get ⟨j0, Nat.lt_of_succ_lt_succ hj⟩ = fee := by
              simpa using hjf
            have hmem : fee ∈ rest :=
              hjf2 ▸ List.get_mem rest j0 (Nat.lt_of_succ_lt_succ hj)
            exact hdiff (hr ▸ hall fee hmem)
        · exact Except.noConfusion hloop
    · exact Except.noConfusion hloop

/-! ## Shape of a `do_transfer_multiassets` dispatch trace -/

/-- A successful dispatch performs either two executed legs (split case) or
one executed leg, followed in both cases by exactly the one
`TransferredMultiAssets` event carrying the input bundle, the original fee
and the destination. -/
theorem do_transfer_ok_shape {env : Env} {who : Nat} {assets : List MultiAsset}
    {fee : MultiAsset} {dest : MultiLocation} {w : Nat}
    {ov : Option MultiLocation} {tr : List Action}
    (h : do_transfer_multiassets env who assets fee dest w ov = (tr, .ok ())) :
    (∃ mA mB, tr = [.executed mA, .executed mB, .event ⟨who, assets, fee, dest⟩]) ∨
      (∃ m, tr = [.executed m, .event ⟨who, assets, fee, dest⟩]) := by
  unfold do_transfer_multiassets at h
  dsimp only at h
  repeat' split at h
  all_goals injection h with h1 h2
  all_goals try exact Except.noConfusion h2
  · exact Or.inl ⟨_, _, h1.symm⟩
  · exact Or.inr ⟨_, h1.symm⟩

/-- A failed dispatch never deposits an event: the deposit happens only after
every leg has succeeded. -/
theorem do_transfer_error_event_free {env : Env} {who : Nat}
    {assets : List MultiAsset} {fee : MultiAsset} {dest : MultiLocation} {w : Nat}
    {ov : Option MultiLocation} {tr : List Action} {e : Err}
    (h : do_transfer_multiassets env who assets fee dest w ov = (tr, .error e)) :
    ∀ ev, Action.event ev ∉ tr := by
  unfold do_transfer_multiassets at h
  dsimp only at h
  repeat' split at h
  all_goals injection h with h1 h2
  all_goals try exact Except.noConfusion h2
  all_goals intro ev hmem
  all_goals rw [← h1] at hmem
  all_goals simp at hmem

/-- The reserve-agreement loop surfaces only the two reserve errors. -/
theorem reserveLoop_error {env : Env} {fee : MultiAsset} {single : Bool}
    {l : List MultiAsset} {st : Option MultiLocation} {e : Err}
    (h : reserveLoop env fee single l st = .error e) :
    e = .DistinctReserveForAssetAndFee ∨ e = .InvalidAsset := by
  induction l generalizing st with
  | nil => exact Except.noConfusion h
  | cons a rest ih =>
    unfold reserveLoop at h
    split at h
    · dsimp only at h
      split at h
      · split at h
        · exact ih h
        · injection h with h1
          exact Or.inl h1.symm
      · exact ih h
    · injection h with h1
      exact Or.inr h1.symm

/-- Reanchoring never changes the fungibility payload, only the id. -/
theorem reanchorAsset_fungibility {a b : MultiAsset} {t anc : MultiLocation}
    (h : reanchorAsset a t anc = some b) : b.fungibility = a.fungibility := by
  unfold reanchorAsset at h
  split at h
  · rename_i loc hc
    cases hr : reanchorLocation loc t anc with
    | none =>
      rw [hr] at h
      exact Option.noConfusion h
    | some l =>
      rw [hr] at h
      injection h with h1
      rw [← h1]
  · injection h with h1
    rw [← h1]

/-! ## Claim theorems -/

/-- C7: `transfer_kind` classifies every request by decomposing `dest` into
chain and non-chain parts, failing with `InvalidDest` when either is absent,
with `NotCrossChainTransfer` when the chain part equals `self_location`, with
`AssetHasNoReserve` when the reserve is absent, and otherwise yielding
`SelfReserveAsset` when the reserve equals `self_location`, `ToReserve` when
it equals the chain part, and `ToNonReserve` in every other case. -/
theorem C7_transfer_kind_classification (env : Env)
    (reserve : Option MultiLocation) (dest : MultiLocation) :
    transfer_kind env reserve dest = transferKindSpec env reserve dest := by
  unfold transfer_kind ensure_valid_dest transferKindSpec
  cases hc : chain_part dest with
  | none => rfl
  | some chainp =>
    cases hn : non_chain_part dest with
    | none => rfl
    | some nonchain => rfl

/-- C8: on success exactly one `TransferredMultiAssets` event is deposited —
carrying the canonical input bundle with the original full fee — and only
after all executed legs; on error no event is deposited. -/
theorem C8_single_event_after_legs (env : Env) (who : Nat)
    (assets : List MultiAsset) (fee : MultiAsset) (dest : MultiLocation)
    (w : Nat) (ov : Option MultiLocation) :
    (∀ tr, do_transfer_multiassets env who assets fee dest w ov = (tr, .ok ()) →
      ∃ msgs, msgs ≠ [] ∧
        tr = msgs.map Action.executed ++ [.event ⟨who, assets, fee, dest⟩]) ∧
    (∀ tr e, do_transfer_multiassets env who assets fee dest w ov = (tr, .error e) →
      ∀ ev, Action.event ev ∉ tr) := by
  constructor
  · intro tr h
    rcases do_transfer_ok_shape h with ⟨mA, mB, rfl⟩ | ⟨m, rfl⟩
    · exact ⟨[mA, mB], by simp, rfl⟩
    · exact ⟨[m], by simp, rfl⟩
  · intro tr e h
    exact do_transfer_error_event_free h

/-- C4 (amended): every successfully built `ToNonReserve` program contains
exactly two `BuyExecution` instructions, each carrying the floor half
`f / 2` of the fungible fee amount `f` (reanchoring preserves amounts), so
they sum to `f - f % 2` — the full `f` only when `f` is even. -/
theorem C4_to_non_reserve_two_half_fees {env : Env} {assets : List MultiAsset}
    {fee : MultiAsset} {reserve dest recipient : MultiLocation} {w : Nat}
    {msg : Xcm} {f : Nat} (hfee : fee.fungibility = .Fungible f)
    (h : transfer_to_non_reserve env assets fee reserve dest recipient w = .ok msg) :
    buyExecAmounts msg = [f / 2, f / 2] ∧ f / 2 + f / 2 = f - f % 2 := by
  obtain ⟨fee1, fee2, hre1, hre2, hmsg⟩ := transfer_to_non_reserve_ok h
  subst hmsg
  have hfa : fungible_amount fee = f := by
    unfold fungible_amount
    rw [hfee]
  constructor
  · have h1 := reanchorAsset_fungibility hre1
    have h2 := reanchorAsset_fungibility hre2
    rw [hfa] at h1 h2
    simp [buyExecAmounts, fungible_amount, h1, h2]
  · omega

/-- The `fee_to_dest < fee` guard, for a fungible fee, is exactly the amount
comparison `min_xcm_fee < fee.amount`. -/
theorem multiAssetLt_fee_guard {fee : MultiAsset} {m a : Nat}
    (hfee : fee.fungibility = .Fungible a) :
    (multiAssetLt ⟨fee.id, .Fungible m⟩ fee = true) ↔ m < a := by
  obtain ⟨i, f⟩ := fee
  cases hfee
  exact multiAssetLt_same_id_fungible

theorem fungible_amount_of_fungible {fee : MultiAsset} {a : Nat}
    (hfee : fee.fungibility = .Fungible a) : fungible_amount fee = a := by
  unfold fungible_amount
  rw [hfee]

/-- C6: in the split case, a registered minimum at or above the fungible fee
amount makes the dispatch fail with `FeeNotEnough` before anything happens:
the trace is empty — no program executed, no message sent, no event
deposited. -/
theorem C6_fee_not_enough {env : Env} {who : Nat} {assets : List MultiAsset}
    {fee : MultiAsset} {dest : MultiLocation} {w : Nat} {ov : Option MultiLocation}
    {nfr : Option MultiLocation} {rl : MultiLocation} {m a : Nat}
    (hlen : assets.length ≤ env.maxAssetsForTransfer)
    (hfilter : env.multiLocationsFilter dest = true)
    (hloop : reserveLoop env fee (assets.length == 1) assets none = .ok nfr)
    (hsplit : env.reserve fee ≠ nfr)
    (hchain : nfr = chain_part dest)
    (hnfr : nfr = some rl)
    (hmin : env.minXcmFee rl = some m)
    (hfee : fee.fungibility = .Fungible a)
    (hge : a ≤ m) :
    do_transfer_multiassets env who assets fee dest w ov =
      ([], .error .FeeNotEnough) := by
  subst hnfr
  have hguard : ¬ multiAssetLt ⟨fee.id, .Fungible m⟩ fee = true := by
    rw [multiAssetLt_fee_guard hfee]
    omega
  unfold do_transfer_multiassets
  simp only [if_neg (not_not_intro hlen), if_neg (not_not_intro hfilter), hloop,
    if_pos hsplit, if_neg (not_not_intro hchain), hmin, if_pos hguard]

/-- C10: with a fungible fee — which every caller inside the pallet
provides — `do_transfer_multiassets` can never surface the `panicked` marker
standing for the `expect` panics of `half` and `subtract_fee`: `half`
divides by the constant 2, and `subtract_fee` runs only after the
`fee_to_dest < fee` guard, which for a fungible fee forces
`min_xcm_fee < fee.amount`. -/
theorem C10_no_panic (env : Env) (who : Nat) (assets : List MultiAsset)
    (fee : MultiAsset) (dest : MultiLocation) (w : Nat)
    (ov : Option MultiLocation) (a : Nat) (hfee : fee.fungibility = .Fungible a) :
    (do_transfer_multiassets env who assets fee dest w ov).2 ≠
      .error .panicked := by
  unfold do_transfer_multiassets
  dsimp only
  repeat' split
  all_goals intro hcon
  all_goals simp at hcon
  all_goals try subst hcon
  · rename_i heq
    rcases reserveLoop_error heq with h2 | h2 <;> exact Err.noConfusion h2
  · rename_i hx1 minf hminf hguard hx heq
    have hlt := (multiAssetLt_fee_guard hfee).mp (not_not.mp hguard)
    rw [subtract_fee_some fee minf
      (by rw [fungible_amount_of_fungible hfee]; omega)] at heq
    exact Option.noConfusion heq
  · rename_i heq
    exact execute_error_ne_panic heq rfl
  · rename_i heq
    exact execute_error_ne_panic heq rfl
  · rename_i heq
    exact execute_error_ne_panic heq rfl

/-- C1 (amended): in the split case a successful dispatch executes exactly
two programs, leg A strictly before leg B, then the event.  Leg A carries the
single asset `(fee.id, fee.amount − min_xcm_fee)`; it is addressed to the fee
reserve whenever the fee reserve is not `self_location` (when the fee asset
is self-reserve, leg A is a `TransferReserveAsset` addressed directly to the
destination chain instead).  Leg B carries the canonically sorted input
bundle with the fee entry replaced by `(fee.id, min_xcm_fee)` and every
non-fee entry unchanged, and is addressed to the destination chain.  In the
equal-reserve case exactly one program is executed. -/
theorem C1_split_routing (env : Env) (who : Nat) (assets : List MultiAsset)
    (fee : MultiAsset) (dest : MultiLocation) (w : Nat)
    (ov : Option MultiLocation) :
    (∀ a m rl frl tr,
      fee.fungibility = .Fungible a →
      reserveLoop env fee (assets.length == 1) assets none = .ok (some rl) →
      env.reserve fee ≠ some rl →
      some rl = chain_part dest →
      env.minXcmFee rl = some m →
      env.reserve fee = some frl →
      IdSorted assets →
      do_transfer_multiassets env who assets fee dest w ov = (tr, .ok ()) →
      ∃ msgA msgB,
        tr = [.executed msgA, .executed msgB, .event ⟨who, assets, fee, dest⟩] ∧
        carried msgA = some [⟨fee.id, .Fungible (a - m)⟩] ∧
        outboundTarget msgA = some (if frl = env.selfLocation then rl else frl) ∧
        carried msgB = some (assets.map fun x =>
          if fee ≠ x then x else ⟨fee.id, .Fungible m⟩) ∧
        outboundTarget msgB = some rl) ∧
    (∀ nfr tr,
      reserveLoop env fee (assets.length == 1) assets none = .ok nfr →
      env.reserve fee = nfr →
      do_transfer_multiassets env who assets fee dest w ov = (tr, .ok ()) →
      ∃ msg, tr = [.executed msg, .event ⟨who, assets, fee, dest⟩]) := by
  constructor
  · intro a m rl frl tr hfee hloop hsplit hchain hmin hfr hsort hok
    unfold do_transfer_multiassets at hok
    dsimp only at hok
    split at hok
    · injection hok with h1 h2
      exact Except.noConfusion h2
    · split at hok
      · injection hok with h1 h2
        exact Except.noConfusion h2
      · rw [hloop] at hok
        dsimp only at hok
        rw [if_pos hsplit, if_neg (not_not_intro hchain)] at hok
        rw [hmin] at hok
        dsimp only at hok
        split at hok
        · injection hok with h1 h2
          exact Except.noConfusion h2
        · rename_i hguard
          have hlt := (multiAssetLt_fee_guard hfee).mp (not_not.mp hguard)
          rw [subtract_fee_some fee m
            (by rw [fungible_amount_of_fungible hfee]; omega)] at hok
          rw [fungible_amount_of_fungible hfee] at hok
          dsimp only at hok
          have hgid : ∀ x : MultiAsset,
              (if fee ≠ x then x else (⟨fee.id, .Fungible m⟩ : MultiAsset)).id
                = x.id := by
            intro x
            by_cases hx : fee ≠ x
            · rw [if_pos hx]
            · rw [if_neg hx]
              show fee.id = x.id
              rw [not_not.mp hx]
          have hfold : assets.foldl (fun acc asset =>
              MultiAssets.push acc
                (if fee ≠ asset then asset else ⟨fee.id, .Fungible m⟩)) [] =
              assets.map fun x =>
                if fee ≠ x then x else ⟨fee.id, .Fungible m⟩ := by
            rw [← List.foldl_map]
            apply foldPush_id
            unfold IdSorted
            rw [List.pairwise_map]
            refine hsort.imp ?_
            intro x y hxy
            rw [hgid, hgid]
            exact hxy
          rw [hfold] at hok
          have hpush1 : MultiAssets.push []
              (⟨fee.id, .Fungible (a - m)⟩ : MultiAsset)
                = [⟨fee.id, .Fungible (a - m)⟩] := rfl
          rw [hpush1] at hok
          split at hok
          · injection hok with h1 h2
            exact Except.noConfusion h2
          · rename_i msgA hA
            split at hok
            · injection hok with h1 h2
              exact Except.noConfusion h2
            · rename_i msgB hB
              injection hok with h1 h2
              refine ⟨msgA, msgB, h1.symm, ?_, ?_, ?_, ?_⟩
              · obtain ⟨kA, dA, rA, recipA, htkA, hcarA, _, _⟩ :=
                  execute_ok_shape hA
                exact hcarA
              · obtain ⟨kA, dA, rA, recipA, htkA, _, htarA, _⟩ :=
                  execute_ok_shape hA
                obtain ⟨hcA, _, hresA, _, _⟩ := transfer_kind_ok htkA
                have hdA : dA = rl := by
                  rw [hcA] at hchain
                  exact Option.some.inj hchain.symm
                have hrA : rA = frl := by
                  rw [hfr] at hresA
                  exact (Option.some.inj hresA).symm
                rw [htarA, hdA, hrA]
              · obtain ⟨kB, dB, rB, recipB, htkB, hcarB, _, _⟩ :=
                  execute_ok_shape hB
                exact hcarB
              · obtain ⟨kB, dB, rB, recipB, htkB, _, htarB, _⟩ :=
                  execute_ok_shape hB
                obtain ⟨hcB, _, hresB, _, _⟩ := transfer_kind_ok htkB
                have hdB : dB = rl := by
                  rw [hcB] at hchain
                  exact Option.some.inj hchain.symm
                have hrB : rB = rl := (Option.some.inj hresB).symm
                rw [htarB, hdB, hrB, ite_self]
  · intro nfr tr hloop heq hok
    rcases do_transfer_ok_shape hok with ⟨mA, mB, htr⟩ | ⟨msg, htr⟩
    · exfalso
      unfold do_transfer_multiassets at hok
      dsimp only at hok
      split at hok
      · injection hok with h1 h2
        exact Except.noConfusion h2
      · split at hok
        · injection hok with h1 h2
          exact Except.noConfusion h2
        · rw [hloop] at hok
          dsimp only at hok
          rw [if_neg (by rw [heq]; exact fun hc => hc rfl)] at hok
          split at hok
          · injection hok with h1 h2
            exact Except.noConfusion h2
          · injection hok with h1 h2
            rw [← h1] at htr
            simp at htr
    · exact ⟨msg, htr⟩

/-- C2 (amended): when the fee reserve differs from the non-fee reserve, the
call requires the non-fee reserve to equal `dest.chain_part()` and rejects
with `InvalidAsset` otherwise; it then fetches `min_xcm_fee` keyed by the
NON-FEE reserve `R_a` (which equals the destination chain part — not by the
fee reserve `R_f`), failing with `MinXcmFeeNotDefined` when no minimum is
registered under `R_a`. -/
theorem C2_split_validation (env : Env) (who : Nat) (assets : List MultiAsset)
    (fee : MultiAsset) (dest : MultiLocation) (w : Nat)
    (ov : Option MultiLocation) :
    (∀ nfr,
      assets.length ≤ env.maxAssetsForTransfer →
      env.multiLocationsFilter dest = true →
      reserveLoop env fee (assets.length == 1) assets none = .ok nfr →
      env.reserve fee ≠ nfr →
      ¬ nfr = chain_part dest →
      do_transfer_multiassets env who assets fee dest w ov =
        ([], .error .InvalidAsset)) ∧
    (∀ rl,
      assets.length ≤ env.maxAssetsForTransfer →
      env.multiLocationsFilter dest = true →
      reserveLoop env fee (assets.length == 1) assets none = .ok (some rl) →
      env.reserve fee ≠ some rl →
      some rl = chain_part dest →
      env.minXcmFee rl = none →
      do_transfer_multiassets env who assets fee dest w ov =
        ([], .error .MinXcmFeeNotDefined)) := by
  constructor
  · intro nfr hlen hfilter hloop hsplit hchain
    unfold do_transfer_multiassets
    simp only [if_neg (not_not_intro hlen), if_neg (not_not_intro hfilter), hloop,
      if_pos hsplit, if_pos hchain]
  · intro rl hlen hfilter hloop hsplit hchain hmin
    unfold do_transfer_multiassets
    simp only [if_neg (not_not_intro hlen), if_neg (not_not_intro hfilter), hloop,
      if_pos hsplit, if_neg (not_not_intro hchain), hmin]

/-- C3 (amended): in the split case, the recipient/refund beneficiary of
leg A (the fee-reserve leg) is `self_location` itself — the chain's sovereign
account — and NOT `self_location` appended with the sender's interior path. -/
theorem C3_legA_beneficiary {env : Env} {who : Nat} {assets : List MultiAsset}
    {fee : MultiAsset} {dest : MultiLocation} {w : Nat} {ov : Option MultiLocation}
    {nfr : Option MultiLocation} {tr : List Action} {msgA : Xcm}
    (hloop : reserveLoop env fee (assets.length == 1) assets none = .ok nfr)
    (hsplit : env.reserve fee ≠ nfr)
    (hok : do_transfer_multiassets env who assets fee dest w ov = (tr, .ok ()))
    (hhead : tr.head? = some (.executed msgA)) :
    depositBeneficiaries msgA = [env.selfLocation] := by
  unfold do_transfer_multiassets at hok
  dsimp only at hok
  split at hok
  · injection hok with h1 h2
    exact Except.noConfusion h2
  · split at hok
    · injection hok with h1 h2
      exact Except.noConfusion h2
    · rw [hloop] at hok
      dsimp only at hok
      rw [if_pos hsplit] at hok
      split at hok
      · injection hok with h1 h2
        exact Except.noConfusion h2
      · split at hok
        · injection hok with h1 h2
          exact Except.noConfusion h2
        · split at hok
          · injection hok with h1 h2
            exact Except.noConfusion h2
          · split at hok
            · injection hok with h1 h2
              exact Except.noConfusion h2
            · split at hok
              · injection hok with h1 h2
                exact Except.noConfusion h2
              · split at hok
                · injection hok with h1 h2
                  exact Except.noConfusion h2
                · rename_i msgA0 hA
                  split at hok
                  · injection hok with h1 h2
                    exact Except.noConfusion h2
                  · injection hok with h1 h2
                    rw [← h1] at hhead
                    have hmsg : msgA = msgA0 := by
                      simp only [List.head?] at hhead
                      injection hhead with h3
                      injection h3 with h4
                      exact h4.symm
                    subst hmsg
                    obtain ⟨kA, dA, rA, recipA, htkA, _, _, hben⟩ :=
                      execute_ok_shape hA
                    simpa using hben

/-- C5 (amended): (a) once the loop state holds a reserve, a later fungible
entry with a different reserve fails the call with
`DistinctReserveForAssetAndFee`; (b) provided every entry's reserve is
defined, a successful loop whose final reserve differs from the fee's
reserve forces every entry strictly before any occurrence of the fee to be
the fee itself — with the bundle canonically sorted, the fee must sort
before every entry differing from it for the split path to be reachable. -/
theorem C5_fee_sorts_first (env : Env) (fee : MultiAsset) :
    (∀ (pre : List MultiAsset) (b : MultiAsset) (post : List MultiAsset)
        (r : MultiLocation),
      2 ≤ (pre ++ b :: post).length →
      reserveLoop env fee ((pre ++ b :: post).length == 1) pre none =
        .ok (some r) →
      isFungibleNonzero b = true →
      env.reserve b ≠ some r →
      reserveLoop env fee ((pre ++ b :: post).length == 1) (pre ++ b :: post)
        none = .error .DistinctReserveForAssetAndFee) ∧
    (∀ (assets : List MultiAsset) (nfr : Option MultiLocation),
      2 ≤ assets.length →
      reserveLoop env fee (assets.length == 1) assets none = .ok nfr →
      (∀ x ∈ assets, (env.reserve x).isSome) →
      env.reserve fee ≠ nfr →
      ∀ i j (hi : i < assets.length) (hj : j < assets.length), i < j →
        assets.get ⟨j, hj⟩ = fee → assets.get ⟨i, hi⟩ = fee) := by
  constructor
  · intro pre b post r hlen hpre hb hbr
    have hflag : ((pre ++ b :: post).length == 1) = false := by
      rw [beq_eq_false_iff_ne]
      omega
    rw [hflag] at hpre
    rw [hflag]
    exact reserveLoop_distinct_error env fee pre b post r hpre hb hbr
  · intro assets nfr hlen hloop hres hdiff
    have hflag : (assets.length == 1) = false := by
      rw [beq_eq_false_iff_ne]
      omega
    rw [hflag] at hloop
    exact reserveLoop_fee_first env fee assets nfr hloop hres hdiff

theorem push_nil (a : MultiAsset) : MultiAssets.push [] a = [a] := by
  cases hf : a.fungibility <;>
    simp [MultiAssets.push, hf, pushMerge, sortedInsert]

theorem chain_part_appendWith_parachain (did : Nat) (xs : List Junction) :
    chain_part (appendWith ⟨1, [.Parachain did]⟩ xs) =
      some ⟨1, [.Parachain did]⟩ := by
  unfold appendWith
  split
  · simp only [List.singleton_append]
    rfl
  · rfl

/-- A successfully sent `Transact` program has exactly the six-instruction
shape built by `send_transact`. -/
theorem send_transact_ok {env : Env} {tfl : MultiLocation} {tfa : Nat}
    {dcl : MultiLocation} {ι : List Junction} {w : Nat} {call : List Nat}
    {rr : MultiLocation} {act : Action}
    (h : send_transact env tfl tfa dcl ι w call rr = .ok act) :
    ∃ fee1, reanchorAsset ⟨.Concrete tfl, .Fungible tfa⟩ dcl env.ancestry
        = some fee1 ∧
      env.sendOk = true ∧
      act = .sent dcl
        [.DescendOrigin ι, .WithdrawAsset [fee1], .BuyExecution fee1 w,
         .Transact .SovereignAccount w call, .RefundSurplus,
         .DepositAsset 1 rr] := by
  unfold send_transact at h
  split at h
  · exact Except.noConfusion h
  · rename_i fee1 hre
    dsimp only at h
    rw [push_nil] at h
    split at h
    · rename_i hsend
      injection h with h1
      exact ⟨fee1, hre, hsend, h1.symm⟩
    · exact Except.noConfusion h

/-- With a reanchorable fee, a dead transport surfaces exactly
`SendFailure`. -/
theorem send_transact_send_failure {env : Env} {tfl : MultiLocation} {tfa : Nat}
    {dcl : MultiLocation} {ι : List Junction} {w : Nat} {call : List Nat}
    {rr : MultiLocation} {fee1 : MultiAsset}
    (hre : reanchorAsset ⟨.Concrete tfl, .Fungible tfa⟩ dcl env.ancestry
      = some fee1)
    (hsend : env.sendOk = false) :
    send_transact env tfl tfa dcl ι w call rr = .error .SendFailure := by
  unfold send_transact
  rw [hre]
  dsimp only
  rw [push_nil, if_neg (by rw [hsend]; exact fun hc => Bool.noConfusion hc)]

/-- A singleton bundle always fixes the non-fee reserve to the reserve of its
only (fungible, non-zero) asset. -/
theorem reserveLoop_singleton (env : Env) (fee x : MultiAsset)
    (hx : isFungibleNonzero x = true) :
    reserveLoop env fee true [x] none = .ok (env.reserve x) := by
  unfold reserveLoop
  rw [if_pos hx]
  have hcond : ((fee ≠ x ∧ (none : Option MultiLocation) = none) ∨ true = true) :=
    Or.inr rfl
  rw [if_pos hcond]
  dsimp only
  cases hr : env.reserve x with
  | none => rfl
  | some r =>
    dsimp only
    rw [if_pos rfl]
    rfl

/-- A single-asset transfer whose fee is the asset itself never takes the
split path: its trace is one executed program plus the event. -/
theorem do_transfer_single_asset_ok {env : Env} {who : Nat} {x : MultiAsset}
    {dcl : MultiLocation} {w : Nat} {ov : Option MultiLocation} {tr : List Action}
    (h : do_transfer_multiassets env who [x] x dcl w ov = (tr, .ok ())) :
    ∃ m, execute_and_send_reserve_kind_xcm env (env.accountToLocation who) [x] x
        (env.reserve x) dcl ov w = .ok m ∧
      tr = [.executed m, .event ⟨who, [x], x, dcl⟩] := by
  unfold do_transfer_multiassets at h
  dsimp only at h
  split at h
  · injection h with h1 h2
    exact Except.noConfusion h2
  · split at h
    · injection h with h1 h2
      exact Except.noConfusion h2
    · simp only [List.length_singleton, beq_self_eq_true] at h
      by_cases hx : isFungibleNonzero x = true
      · rw [reserveLoop_singleton env x x hx] at h
        dsimp only at h
        rw [if_neg (fun hc => hc rfl)] at h
        split at h
        · injection h with h1 h2
          exact Except.noConfusion h2
        · rename_i msg hE
          injection h with h1 h2
          exact ⟨msg, hE, h1.symm⟩
      · have hfail : reserveLoop env x true [x] none = .error .InvalidAsset := by
          unfold reserveLoop
          rw [if_neg hx]
        rw [hfail] at h
        injection h with h1 h2
        exact Except.noConfusion h2

/-- C9: `transfer_with_transact` first dispatches a transfer carrying the
given amount of the currency, with the destination's chain part equal to
`(1, Parachain(dest_chain_id))`, and then hands the transport exactly the
program `DescendOrigin(sender interior); WithdrawAsset(reanchored transact
fee); BuyExecution(limited to dest_weight); Transact(SovereignAccount,
require_weight_at_most = dest_weight, encoded call); RefundSurplus;
DepositAsset(max_assets = 1, beneficiary = self_location ++ sender
interior)`; a transport failure surfaces as `SendFailure`. -/
theorem C9_transfer_with_transact (env : Env) (who : Nat) (cid : Nat)
    (amount : Nat) (did : Nat) (w : Nat) (call : List Nat) (tfee : Nat)
    (loc : MultiLocation) :
    (∀ tr,
      env.currencyIdConvert cid = some loc →
      do_transfer_with_transact env who cid amount did w call tfee =
        (tr, .ok ()) →
      ∃ m fee1,
        reanchorAsset ⟨.Concrete loc, .Fungible tfee⟩ ⟨1, [.Parachain did]⟩
          env.ancestry = some fee1 ∧
        tr = [.executed m,
          .event ⟨who, [⟨.Concrete loc, .Fungible amount⟩],
            ⟨.Concrete loc, .Fungible amount⟩,
            appendWith ⟨1, [.Parachain did]⟩
              (env.accountToLocation who).interior⟩,
          .sent ⟨1, [.Parachain did]⟩
            [.DescendOrigin (env.accountToLocation who).interior,
             .WithdrawAsset [fee1],
             .BuyExecution fee1 w,
             .Transact .SovereignAccount w call,
             .RefundSurplus,
             .DepositAsset 1
               (appendWith env.selfLocation
                 (env.accountToLocation who).interior)]] ∧
        carried m = some [⟨.Concrete loc, .Fungible amount⟩] ∧
        chain_part (appendWith ⟨1, [.Parachain did]⟩
          (env.accountToLocation who).interior) = some ⟨1, [.Parachain did]⟩) ∧
    (∀ ttr fee1,
      amount ≠ 0 →
      env.multiLocationsFilter (appendWith ⟨1, [.Parachain did]⟩
        (env.accountToLocation who).interior) = true →
      env.currencyIdConvert cid = some loc →
      do_transfer_multiassets env who [⟨.Concrete loc, .Fungible amount⟩]
        ⟨.Concrete loc, .Fungible amount⟩
        (appendWith ⟨1, [.Parachain did]⟩ (env.accountToLocation who).interior)
        w (some (appendWith env.selfLocation
          (env.accountToLocation who).interior)) = (ttr, .ok ()) →
      reanchorAsset ⟨.Concrete loc, .Fungible tfee⟩ ⟨1, [.Parachain did]⟩
        env.ancestry = some fee1 →
      env.sendOk = false →
      do_transfer_with_transact env who cid amount did w call tfee =
        (ttr, .error .SendFailure)) := by
  constructor
  · intro tr hconv hok
    unfold do_transfer_with_transact at hok
    dsimp only at hok
    split at hok
    · injection hok with h1 h2
      exact Except.noConfusion h2
    · split at hok
      · injection hok with h1 h2
        exact Except.noConfusion h2
      · rw [hconv] at hok
        dsimp only at hok
        split at hok
        · rename_i ttr0 e hT
          injection hok with h1 h2
          exact Except.noConfusion h2
        · rename_i ttr0 u hT
          rw [chain_part_appendWith_parachain] at hok
          dsimp only at hok
          split at hok
          · injection hok with h1 h2
            exact Except.noConfusion h2
          · rename_i act hS
            injection hok with h1 h2
            obtain ⟨fee1, hre, hsend, hact⟩ := send_transact_ok hS
            obtain ⟨m, hE, httr⟩ := do_transfer_single_asset_ok hT
            refine ⟨m, fee1, hre, ?_, ?_, chain_part_appendWith_parachain did _⟩
            · rw [← h1, httr, hact]
              rfl
            · obtain ⟨k, d, r, recip, htk, hcar, _, _⟩ := execute_ok_shape hE
              exact hcar
  · intro ttr fee1 hzero hfilter hconv hT hre hsend
    unfold do_transfer_with_transact
    rw [if_neg hzero]
    dsimp only
    rw [if_neg (not_not_intro hfilter), hconv]
    dsimp only
    rw [hT]
    dsimp only
    rw [chain_part_appendWith_parachain]
    dsimp only
    rw [send_transact_send_failure hre hsend]

/-! ## Counterexamples and witnesses on the concrete topology -/

/-- C1 counterexample: with a self-reserve fee and sibling-reserve assets the
split path executes two programs, but leg A is addressed to the destination
chain `(1, Parachain 3000)` rather than toward the fee reserve (which here is
`self_location = (1, Parachain 2000)`): "leg A … routed toward the fee
reserve" fails as universally stated. -/
theorem C1_counterexample :
    envA.reserve selfAsset = some envA.selfLocation ∧
    (executedPrograms (do_transfer_multiassets envA 7 [selfAsset, assetP3]
      selfAsset destA 400 none).1).map outboundTarget =
      [some ⟨1, [.Parachain 3000]⟩, some ⟨1, [.Parachain 3000]⟩] ∧
    (⟨1, [.Parachain 3000]⟩ : MultiLocation) ≠ envA.selfLocation :=
  ⟨rfl, rfl, by decide⟩

/-- C1 witness: the hub-fee split scenario (spec scenario 4) dispatches
leg A (7000 to the hub) strictly before leg B (the bundle with the fee slot
rewritten to 3000, to parachain 3000), followed by the event. -/
theorem C1_witness :
    ∃ msgA msgB,
      (do_transfer_multiassets envA 7 [feeHub, assetP3] feeHub destA 400
        none).1 =
        [.executed msgA, .executed msgB,
         .event ⟨7, [feeHub, assetP3], feeHub, destA⟩] ∧
      carried msgA = some [⟨feeHub.id, .Fungible (10000 - 3000)⟩] ∧
      outboundTarget msgA =
        some (if (⟨1, []⟩ : MultiLocation) = envA.selfLocation
          then ⟨1, [.Parachain 3000]⟩ else ⟨1, []⟩) ∧
      carried msgB = some ([feeHub, assetP3].map fun x =>
        if feeHub ≠ x then x else ⟨feeHub.id, .Fungible 3000⟩) ∧
      outboundTarget msgB = some ⟨1, [.Parachain 3000]⟩ :=
  (C1_split_routing envA 7 [feeHub, assetP3] feeHub destA 400 none).1
    10000 3000 ⟨1, [.Parachain 3000]⟩ ⟨1, []⟩ _
    rfl rfl (by decide) rfl rfl rfl (by unfold IdSorted; decide) rfl

/-- C2 counterexample: under `envB` the minimum IS registered for the fee
reserve (the hub), yet the call fails with `MinXcmFeeNotDefined` — the
lookup is keyed by the non-fee reserve, not, as claimed, by the fee
reserve. -/
theorem C2_counterexample :
    envB.reserve feeHub = some ⟨1, []⟩ ∧
    envB.minXcmFee ⟨1, []⟩ = some 3000 ∧
    do_transfer_multiassets envB 7 [feeHub, assetP3] feeHub destA 400 none =
      ([], .error .MinXcmFeeNotDefined) :=
  ⟨rfl, rfl, rfl⟩

/-- C2 witness: with no minimum registered for the non-fee reserve the
dispatch fails with `MinXcmFeeNotDefined` and an empty trace. -/
theorem C2_witness :
    do_transfer_multiassets envB 7 [feeHub, assetP3] feeHub destA 400 none =
      ([], .error .MinXcmFeeNotDefined) :=
  (C2_split_validation envB 7 [feeHub, assetP3] feeHub destA 400 none).2
    ⟨1, [.Parachain 3000]⟩ (by decide) rfl rfl (by decide) rfl rfl

/-- C3 counterexample: in the hub-fee split scenario the leg-A beneficiary
is `self_location = (1, Parachain 2000)` itself, which differs from
`self_location` appended with the sender's interior `[AccountId32 7]`. -/
theorem C3_counterexample :
    depositBeneficiaries (firstExecuted (do_transfer_multiassets envA 7
      [feeHub, assetP3] feeHub destA 400 none).1) =
      [⟨1, [.Parachain 2000]⟩] ∧
    envA.selfLocation = ⟨1, [.Parachain 2000]⟩ ∧
    (envA.accountToLocation 7).interior = [.AccountId32 7] ∧
    (⟨1, [.Parachain 2000]⟩ : MultiLocation) ≠
      appendWith ⟨1, [.Parachain 2000]⟩ [.AccountId32 7] := by
  refine ⟨?_, rfl, rfl, by decide⟩
  rw [show firstExecuted (do_transfer_multiassets envA 7
      [feeHub, assetP3] feeHub destA 400 none).1 =
    [.WithdrawAsset [⟨feeHub.id, .Fungible 7000⟩],
     .InitiateReserveWithdraw ⟨1, []⟩
       [.BuyExecution ⟨.Concrete ⟨0, []⟩, .Fungible 3500⟩ 400,
        .DepositReserveAsset 1 ⟨0, [.Parachain 3000]⟩
          [.BuyExecution ⟨.Concrete ⟨0, [.Parachain 2000]⟩, .Fungible 3500⟩ 400,
           .DepositAsset 1 ⟨1, [.Parachain 2000]⟩]]] from rfl]
  simp [depositBeneficiaries]

/-- C3 witness: the leg-A beneficiary in the split scenario is exactly
`self_location`. -/
theorem C3_witness :
    depositBeneficiaries (firstExecuted (do_transfer_multiassets envA 7
      [feeHub, assetP3] feeHub destA 400 none).1) = [envA.selfLocation] :=
  @C3_legA_beneficiary envA 7 [feeHub, assetP3] feeHub destA 400 none
    (some ⟨1, [.Parachain 3000]⟩) _ _ rfl (by decide) rfl rfl

/-- C4 counterexample: with the odd fee 7 the two `BuyExecution`
instructions carry 3 each, summing to 6 ≠ 7: the claim that they sum to the
full input fee fails. -/
theorem C4_counterexample :
    (transfer_to_non_reserve envA [⟨feeHub.id, .Fungible 7⟩]
      ⟨feeHub.id, .Fungible 7⟩ ⟨1, []⟩ ⟨1, [.Parachain 4000]⟩
      ⟨0, [.AccountId32 9]⟩ 400).map buyExecAmounts = .ok [3, 3] ∧
    3 + 3 ≠ 7 := by
  refine ⟨?_, by decide⟩
  rw [show transfer_to_non_reserve envA [⟨feeHub.id, .Fungible 7⟩]
      ⟨feeHub.id, .Fungible 7⟩ ⟨1, []⟩ ⟨1, [.Parachain 4000]⟩
      ⟨0, [.AccountId32 9]⟩ 400 =
    .ok [.WithdrawAsset [⟨feeHub.id, .Fungible 7⟩],
      .InitiateReserveWithdraw ⟨1, []⟩
        [.BuyExecution ⟨.Concrete ⟨0, []⟩, .Fungible 3⟩ 400,
         .DepositReserveAsset 1 ⟨0, [.Parachain 4000]⟩
           [.BuyExecution ⟨.Concrete ⟨0, [.Parachain 2000]⟩, .Fungible 3⟩ 400,
            .DepositAsset 1 ⟨0, [.AccountId32 9]⟩]]] from rfl]
  simp [Except.map, buyExecAmounts, fungible_amount]

/-- C4 witness: with the even fee 8 both halves are 4 and the sum is the
full fee. -/
theorem C4_witness :
    ∃ msg, transfer_to_non_reserve envA [⟨feeHub.id, .Fungible 8⟩]
        ⟨feeHub.id, .Fungible 8⟩ ⟨1, []⟩ ⟨1, [.Parachain 4000]⟩
        ⟨0, [.AccountId32 9]⟩ 400 = .ok msg ∧
      buyExecAmounts msg = [8 / 2, 8 / 2] ∧ 8 / 2 + 8 / 2 = 8 - 8 % 2 :=
  ⟨_, rfl, @C4_to_non_reserve_two_half_fees envA [⟨feeHub.id, .Fungible 8⟩]
    ⟨feeHub.id, .Fungible 8⟩ ⟨1, []⟩ ⟨1, [.Parachain 4000]⟩
    ⟨0, [.AccountId32 9]⟩ 400 _ 8 rfl rfl⟩

/-- C5 counterexample: under `envC` a two-asset bundle whose entries both
differ from the fee and sort strictly before it still reaches the split
path (two executed programs, successful dispatch), because the fee does not
occur in the bundle at all: "only when the fee asset sorts strictly before
every asset that differs from it" fails as stated. -/
theorem C5_counterexample :
    (executedPrograms (do_transfer_multiassets envC 7 [a1X, a2X] feeX destA
      400 none).1).length = 2 ∧
    (do_transfer_multiassets envC 7 [a1X, a2X] feeX destA 400 none).2 =
      .ok () ∧
    a1X ≠ feeX ∧ multiAssetLt a1X feeX = true :=
  ⟨rfl, rfl, by decide, by decide⟩

/-- C5 witness: appending the hub-reserve fee after a sibling-reserve asset
makes the loop fail with `DistinctReserveForAssetAndFee` — the mechanism
that forces the fee to sort first when it occurs in the bundle. -/
theorem C5_witness :
    reserveLoop envA feeHub (([assetP3] ++ feeHub :: []).length == 1)
      ([assetP3] ++ feeHub :: []) none =
      .error .DistinctReserveForAssetAndFee :=
  (C5_fee_sorts_first envA feeHub).1 [assetP3] feeHub []
    ⟨1, [.Parachain 3000]⟩ (by decide) rfl rfl (by decide)

/-- C6 witness: spec scenario 5 — fee 2500 against a registered minimum of
3000 fails with `FeeNotEnough` and an empty trace. -/
theorem C6_witness :
    do_transfer_multiassets envA 7 [⟨feeHub.id, .Fungible 2500⟩, assetP3]
      ⟨feeHub.id, .Fungible 2500⟩ destA 400 none =
      ([], .error .FeeNotEnough) :=
  C6_fee_not_enough (by decide) rfl rfl (by decide) rfl rfl rfl rfl
    (by decide)

/-- C8 witness: a successful single-reserve dispatch traces one executed
program followed by exactly the one event. -/
theorem C8_witness :
    ∃ msgs, msgs ≠ [] ∧
      (do_transfer_multiassets envA 7 [assetP3] assetP3 destA 400 none).1 =
        msgs.map Action.executed ++
          [.event ⟨7, [assetP3], assetP3, destA⟩] :=
  (C8_single_event_after_legs envA 7 [assetP3] assetP3 destA 400 none).1
    (do_transfer_multiassets envA 7 [assetP3] assetP3 destA 400 none).1 rfl

/-- C9 witness: spec scenario 6 — transfer 100 of the self currency to
parachain 3000 and then send the six-instruction `Transact` program. -/
theorem C9_witness :
    ∃ m fee1,
      reanchorAsset ⟨.Concrete ⟨1, [.Parachain 2000]⟩, .Fungible 50⟩
        ⟨1, [.Parachain 3000]⟩ envA.ancestry = some fee1 ∧
      (do_transfer_with_transact envA 7 0 100 3000 1000000 [171] 50).1 =
        [.executed m,
         .event ⟨7, [⟨.Concrete ⟨1, [.Parachain 2000]⟩, .Fungible 100⟩],
           ⟨.Concrete ⟨1, [.Parachain 2000]⟩, .Fungible 100⟩,
           appendWith ⟨1, [.Parachain 3000]⟩
             (envA.accountToLocation 7).interior⟩,
         .sent ⟨1, [.Parachain 3000]⟩
           [.DescendOrigin (envA.accountToLocation 7).interior,
            .WithdrawAsset [fee1],
            .BuyExecution fee1 1000000,
            .Transact .SovereignAccount 1000000 [171],
            .RefundSurplus,
            .DepositAsset 1 (appendWith envA.selfLocation
              (envA.accountToLocation 7).interior)]] ∧
      carried m =
        some [⟨.Concrete ⟨1, [.Parachain 2000]⟩, .Fungible 100⟩] ∧
      chain_part (appendWith ⟨1, [.Parachain 3000]⟩
        (envA.accountToLocation 7).interior) = some ⟨1, [.Parachain 3000]⟩ :=
  (C9_transfer_with_transact envA 7 0 100 3000 1000000 [171] 50
    ⟨1, [.Parachain 2000]⟩).1
    (do_transfer_with_transact envA 7 0 100 3000 1000000 [171] 50).1 rfl rfl

/-- C10 witness: a concrete dispatch never surfaces the panic marker. -/
theorem C10_witness :
    (do_transfer_multiassets envA 7 [assetP3] assetP3 destA 400 none).2 ≠
      .error .panicked :=
  C10_no_panic envA 7 [assetP3] assetP3 destA 400 none 500 rfl

end Xtokens
